import Mathlib

/-!
Shallow embedding of the population-synthesis engine of
`cmd/population/population.go` (diagonal.works/ucl-population-health).

Go `float64` arithmetic is modelled over `ℚ`; Go `int` over `ℤ`.  Panics
(out-of-range slice indexing, nil-map dereference, explicit `panic`) are
modelled by `Option`/`Except` results.  Randomness (`rand.Float64()`,
`rand.Shuffle`) is modelled by passing the uniform samples and the drawn
permutations in explicitly.
-/

namespace PopHealth

/-- Sex: Go `type Sex int` with `Male = 0`, `Female = 1`, `Other = 2`
(`population.go` lines 1161-1170).  Values are produced by
`Probabilities.Choose` on a three-entry list, hence never negative, so we
use `ℕ`. -/
abbrev Sex := ℕ

def Male : Sex := 0

def Female : Sex := 1

def Other : Sex := 2

def LastSex : Sex := Other

/-- QOFCondition: Go `type QOFCondition int`, `Diabetes = 0`,
`Hypertension = 1`, `COPD = 2`, `Invalid = -1` (lines 380-389). -/
abbrev QOFCondition := ℤ

def QOFConditionDiabetes : QOFCondition := 0

def QOFConditionHypertension : QOFCondition := 1

def QOFConditionCOPD : QOFCondition := 2

def QOFConditionInvalid : QOFCondition := -1

abbrev LSOACode := String

abbrev GPPracticeCode := String

/-- Go `GPPracticeCodeInvalid GPPracticeCode = ""` (line 301): the
sentinel for "no eligible provider". -/
def GPPracticeCodeInvalid : GPPracticeCode := ""

/-- AgeRange: half-open `[Begin, End)`; `End = 0` means unbounded above
(lines 29-32). -/
structure AgeRange where
  Begin : ℤ
  End : ℤ
  deriving DecidableEq, Repr

/-- Go `func (a AgeRange) Contains(age int) bool` (lines 34-36):
`age >= a.Begin && (age < a.End || a.End == 0)`. -/
def AgeRange.Contains (a : AgeRange) (age : ℤ) : Bool :=
  age ≥ a.Begin && (age < a.End || a.End == 0)

structure AgePrevalence where
  AgeRange : AgeRange
  Prevalence : ℚ
  deriving DecidableEq, Repr

/-- AgePrevalences: Go `[][]AgePrevalence`, outer index is the sex
(lines 51). -/
abbrev AgePrevalences := List (List AgePrevalence)

/-- The band scan inside `AgePrevalences.Prevalence` (lines 53-60): return
the first band containing the age, or 0.0 if none matches. -/
def prevalenceScan (bands : List AgePrevalence) (age : ℤ) : ℚ :=
  match bands with
  | [] => 0
  | p :: rest => if p.AgeRange.Contains age then p.Prevalence else prevalenceScan rest age

/-- Go `func (a AgePrevalences) Prevalence(sex Sex, age int) float64`
(lines 53-60).  The Go code indexes `a[sex]` unconditionally and panics
when `sex` is out of range of the table's sex dimension; `none` models
that panic. -/
def AgePrevalences.Prevalence (a : AgePrevalences) (sex : Sex) (age : ℤ) : Option ℚ :=
  (a.get? sex).map (fun bands => prevalenceScan bands age)

/-- Total variant of the lookup, usable at call sites where the sex index
is in range (see `Prevalence_eq_some`); out-of-range rows scan an empty
band list and give 0. -/
def AgePrevalences.PrevalenceD (a : AgePrevalences) (sex : Sex) (age : ℤ) : ℚ :=
  prevalenceScan (a.getD sex []) age

theorem Prevalence_eq_some {a : AgePrevalences} {sex : Sex} (h : sex < a.length) (age : ℤ) :
    a.Prevalence sex age = some (a.PrevalenceD sex age) := by
  unfold AgePrevalences.Prevalence AgePrevalences.PrevalenceD
  rw [List.getD_eq_getElem?_getD, List.get?_eq_getElem?, List.getElem?_eq_getElem h]
  rfl

/-- Probabilities: Go `type Probabilities []float64` (line 1148). -/
abbrev Probabilities := List ℚ

/-- The loop of `Probabilities.Choose` (lines 1150-1159): subtract each
entry from the sample until the sample is smaller; `none` when the loop
falls through. -/
def chooseLoop : List ℚ → ℚ → Option ℕ
  | [], _ => none
  | x :: xs, s => if s < x then some 0 else (chooseLoop xs (s - x)).map (· + 1)

/-- Go `func (p Probabilities) Choose() int` (lines 1150-1159), with the
uniform sample `rand.Float64()` passed explicitly.  Falls back to
`len(p) - 1`, which is `-1` for the empty list, hence the `ℤ` result. -/
def Probabilities.chooseWith (p : Probabilities) (sample : ℚ) : ℤ :=
  match chooseLoop p sample with
  | some i => (i : ℤ)
  | none => (p.length : ℤ) - 1

theorem chooseLoop_lt_length {p : List ℚ} {s : ℚ} {i : ℕ} (h : chooseLoop p s = some i) :
    i < p.length := by
  induction p generalizing s i with
  | nil => simp [chooseLoop] at h
  | cons x xs ih =>
    simp only [chooseLoop] at h
    split at h
    · simp only [Option.some.injEq] at h
      simp only [List.length_cons]
      omega
    · rw [Option.map_eq_some'] at h
      obtain ⟨j, hj, rfl⟩ := h
      have := ih hj
      simp only [List.length_cons]
      omega

/-- Range of the categorical draw: for a nonempty list the result is in
`[0, length)`; for the empty list it is `-1`. -/
theorem chooseWith_range (p : Probabilities) (s : ℚ) :
    (p ≠ [] → 0 ≤ p.chooseWith s ∧ p.chooseWith s < (p.length : ℤ)) ∧
      (p = [] → p.chooseWith s = -1) := by
  constructor
  · intro hne
    unfold Probabilities.chooseWith
    split
    · next i h =>
      have := chooseLoop_lt_length h
      omega
    · have : 0 < p.length := List.length_pos_of_ne_nil hne
      omega
  · rintro rfl
    rfl

/-- Go `func sum(xs []int) int` (lines 1182-1188). -/
def sum (xs : List ℤ) : ℤ := xs.sum

/-- Go `func sub(xs []int, ys []int) []int` (lines 1190-1196), elementwise
difference (the Go code indexes `ys[i]` for `i < len(xs)`; the inputs it
is applied to have equal lengths). -/
def sub (xs ys : List ℤ) : List ℤ := List.zipWith (· - ·) xs ys

/-- Go `func mulf(xs []float64, ys []float64) []float64` (lines 1206-1212),
elementwise product. -/
def mulf (xs ys : List ℚ) : List ℚ := List.zipWith (· * ·) xs ys

/-- Go `func ratios(xs []int) []float64` (lines 1214-1227): divide by the
sum when positive, otherwise a uniform distribution. -/
def ratios (xs : List ℤ) : List ℚ :=
  let s := sum xs
  if 0 < s then xs.map (fun x => (x : ℚ) / (s : ℚ))
  else xs.map (fun _ => 1 / (xs.length : ℚ))

/-- Go `func normalise(xs []float64)` (lines 1229-1237): divide every
entry by the total. -/
def normalise (xs : List ℚ) : List ℚ := xs.map (· / xs.sum)

/-- Go `func clamp(x float64, min float64, max float64) float64`
(lines 1239-1247). -/
def clamp (x lo hi : ℚ) : ℚ := if x < lo then lo else if x > hi then hi else x

/-- LSOA (lines 469-479); the geometric `Center` is kept abstract: every
use of it goes through the externally computed distance function passed to
`chooseNearbyGP`. -/
structure LSOA where
  Code : LSOACode
  PersonsByAge : List ℤ
  MalesByAge : List ℤ
  FemalesByAge : List ℤ

/-- Person (lines 1269-1276).  `Conditions` is Go's `[3]bool` array,
modelled as a `List Bool` of length 3 indexed by the condition tag. -/
structure Person where
  ID : ℤ
  Sex : Sex
  Age : ℤ
  Home : LSOACode
  GP : GPPracticeCode
  Conditions : List Bool
  deriving DecidableEq, Repr

/-- Read `p.Conditions[c]` (Go panics out of range; all call sites index
with the tags 0, 1, 2 of a length-3 array). -/
def getCond (conds : List Bool) (c : QOFCondition) : Bool := conds.getD c.toNat false

/-- Write `p.Conditions[c] = v`. -/
def setCond (conds : List Bool) (c : QOFCondition) (v : Bool) : List Bool :=
  conds.set c.toNat v

/-- GPPractice (lines 492-509), restricted to the fields the population
engine reads or writes.  The per-condition arrays are modelled as
functions from the condition tag. -/
structure GPPractice where
  Code : GPPracticeCode
  ListSize : ℤ
  ConditionPrevalence : QOFCondition → ℚ
  ConditionBias : QOFCondition → ℚ
  SimulatedListSize : ℤ
  SimulatedConditionCounts : QOFCondition → ℤ

/-- Go `func makeSexProbabilities(lsoa *LSOA) Probabilities`
(lines 1249-1259): `[males/persons, females/persons,
(persons-males-females)/persons]`. -/
def makeSexProbabilities (lsoa : LSOA) : Probabilities :=
  let males := sum lsoa.MalesByAge
  let females := sum lsoa.FemalesByAge
  let persons := sum lsoa.PersonsByAge
  [(males : ℚ) / (persons : ℚ), (females : ℚ) / (persons : ℚ),
    ((persons - males - females : ℤ) : ℚ) / (persons : ℚ)]

/-- Go `func makeAgeProbabilities(lsoa *LSOA) []Probabilities`
(lines 1261-1267), indexed by sex. -/
def makeAgeProbabilities (lsoa : LSOA) : List Probabilities :=
  [ratios lsoa.MalesByAge, ratios lsoa.FemalesByAge,
    ratios (sub (sub lsoa.PersonsByAge lsoa.MalesByAge) lsoa.FemalesByAge)]

/-- Go `GPPracticeMaxListSize = 20000` (line 1305). -/
def GPPracticeMaxListSize : ℚ := 20000

/-- Go `GPPracticeEqualDistanceLimitM = 750.0` (line 1309). -/
def GPPracticeEqualDistanceLimitM : ℚ := 750

/-- Go `func chooseNearbyGP(lsoa *LSOA, nearbyGPs []GPPracticeCode, gps
map[GPPracticeCode]*GPPractice) GPPracticeCode` (lines 1312-1342).
`dist code` stands for the externally computed geometric distance
`b6.AngleToMeters(lsoa.Center.Distance(gps[code].Location))`; `sample`
is the `rand.Float64()` draw consumed by `Probabilities.Choose`.  The Go
map lookup `gps[gp]` nil-panics for codes missing from the map; the
candidate lists this is called with are drawn from the map's keys, so the
map is modelled as total here. -/
def chooseNearbyGP (nearbyGPs : List GPPracticeCode) (gps : GPPracticeCode → GPPractice)
    (dist : GPPracticeCode → ℚ) (sample : ℚ) : GPPracticeCode :=
  let filtered := nearbyGPs.filter (fun gp => 0 < (gps gp).ListSize)
  if filtered = [] then GPPracticeCodeInvalid
  else
    let distances := filtered.map (fun code =>
      if dist code < GPPracticeEqualDistanceLimitM then 1
      else 1 / (dist code / GPPracticeEqualDistanceLimitM))
    let sizes := filtered.map (fun code =>
      clamp (((gps code).ListSize : ℚ) / GPPracticeMaxListSize) (1/100) 1)
    let p := normalise (mulf distances sizes)
    filtered.getD (Probabilities.chooseWith p sample).toNat GPPracticeCodeInvalid

/-- State threaded through `buildPopulation` (lines 1344-1372): the people
built so far, the practice map (whose `SimulatedListSize` fields the Go
code mutates through pointers), and the `noPossibleGPs` diagnostic
counter. -/
structure BuildState where
  people : List Person
  gps : GPPracticeCode → GPPractice
  noPossibleGPs : ℕ

/-- The body of the inner loop of `buildPopulation` (lines 1353-1363):
draw sex, age and practice for one person, increment the chosen practice's
simulated list size (skipping the invalid sentinel), and append the
person.  `rnd` carries the three uniform samples the iteration consumes. -/
def personStep (lsoa : LSOA) (possibleGPs : List GPPracticeCode) (dist : GPPracticeCode → ℚ)
    (rnd : ℚ × ℚ × ℚ) (st : BuildState) : BuildState :=
  let sp := makeSexProbabilities lsoa
  let ap := makeAgeProbabilities lsoa
  let sex : Sex := (Probabilities.chooseWith sp rnd.1).toNat
  let age : ℤ := Probabilities.chooseWith (ap.getD sex []) rnd.2.1
  let gp := chooseNearbyGP possibleGPs st.gps dist rnd.2.2
  let st' :=
    if gp = GPPracticeCodeInvalid then { st with noPossibleGPs := st.noPossibleGPs + 1 }
    else
      let g := st.gps gp
      { st with gps := Function.update st.gps gp { g with SimulatedListSize := g.SimulatedListSize + 1 } }
  { st' with
    people := st'.people ++
      [{ ID := (st'.people.length : ℤ), Sex := sex, Age := age, Home := lsoa.Code, GP := gp,
         Conditions := [false, false, false] }] }

/-- The inner loop of `buildPopulation` run `n = sum(lsoa.PersonsByAge)`
times; samples are indexed by the running person count. -/
def buildLSOA (lsoa : LSOA) (possibleGPs : List GPPracticeCode) (dist : GPPracticeCode → ℚ)
    (rnd : ℕ → ℚ × ℚ × ℚ) : ℕ → BuildState → BuildState
  | 0, st => st
  | Nat.succ n, st =>
      buildLSOA lsoa possibleGPs dist rnd n (personStep lsoa possibleGPs dist (rnd st.people.length) st)

/-- Go `func buildPopulation(homes LSOASet, lsoas map[LSOACode]*LSOA,
nearbyGPs map[LSOACode][]GPPracticeCode, gps
map[GPPracticeCode]*GPPractice) ([]Person, error)` (lines 1344-1372).
The set of homes is modelled as a list (Go map iteration order is
unspecified). -/
def buildPopulation (homes : List LSOACode) (lsoas : LSOACode → Option LSOA)
    (nearbyGPs : LSOACode → List GPPracticeCode) (gps0 : GPPracticeCode → GPPractice)
    (dist : GPPracticeCode → ℚ) (rnd : ℕ → ℚ × ℚ × ℚ) : Except String BuildState :=
  homes.foldlM (fun st home =>
    match lsoas home with
    | some lsoa =>
        Except.ok (buildLSOA lsoa (nearbyGPs home) dist rnd (sum lsoa.PersonsByAge).toNat st)
    | none => Except.error ("no LSOA " ++ home)) ⟨[], gps0, 0⟩

/-- The per-band body of `buildJointPrevalence` (lines 1390-1408): count
the matching persons and accumulate the expected marginals over them, take
`pc1c2 = min(min(joint, pc1), pc2)`, and emit the two conditional
entries. -/
def jointBandPair (c1 c2 : AgePrevalences) (population : List Person) (sex : Sex)
    (a : AgePrevalence) : AgePrevalence × AgePrevalence :=
  let s := population.foldl (fun (s : ℚ × ℚ × ℚ) person =>
    if person.Sex = sex ∧ a.AgeRange.Contains person.Age then
      (s.1 + 1, s.2.1 + c1.PrevalenceD person.Sex person.Age,
        s.2.2 + c2.PrevalenceD person.Sex person.Age)
    else s) (0, 0, 0)
  let pc1 := s.2.1 / s.1
  let pc2 := s.2.2 / s.1
  let pc1c2 := min (min a.Prevalence pc1) pc2
  (⟨a.AgeRange, pc1c2 / pc2⟩, ⟨a.AgeRange, (pc1 - pc1c2) / (1 - pc2)⟩)

/-- One sex row of `buildJointPrevalence`: the loop appends a pair of
entries for every band of the joint table's row for that sex. -/
def jointRow (c1 c2 : AgePrevalences) (population : List Person) (sex : Sex)
    (bands : List AgePrevalence) : List AgePrevalence × List AgePrevalence :=
  ((bands.map (jointBandPair c1 c2 population sex)).map Prod.fst,
    (bands.map (jointBandPair c1 c2 population sex)).map Prod.snd)

/-- Go `func buildJointPrevalence(c1 AgePrevalences, c2 AgePrevalences,
c1c2 AgePrevalences, population []Person) (AgePrevalences,
AgePrevalences)` (lines 1386-1411): returns the tables for `c1|c2` and
`c1|!c2`.  The Go code allocates `len(c1c2)` rows and fills only the
`Male` and `Female` rows; it panics when `c1c2` has fewer than two rows
(that situation never arises: every joint table has one row per tracked
sex), which this embedding renders as empty rows. -/
def buildJointPrevalence (c1 c2 c1c2 : AgePrevalences) (population : List Person) :
    AgePrevalences × AgePrevalences :=
  let rowM := jointRow c1 c2 population Male (c1c2.getD Male [])
  let rowF := jointRow c1 c2 population Female (c1c2.getD Female [])
  (rowM.1 :: rowF.1 :: List.replicate (c1c2.length - 2) [],
    rowM.2 :: rowF.2 :: List.replicate (c1c2.length - 2) [])

/-- Persons of the population whose sex matches and whose age falls in the
band (the spec's wording of the averaging population). -/
def bandPersons (population : List Person) (sex : Sex) (r : AgeRange) : List Person :=
  population.filter (fun q => q.Sex = sex ∧ r.Contains q.Age)

/-- Number of matching persons for a band and sex. -/
def bandCount (population : List Person) (sex : Sex) (r : AgeRange) : ℕ :=
  (bandPersons population sex r).length

/-- Modelled from the spec's words: "pc1 = average of P(A|age,sex) over
all persons in that band/sex" — the mean of the marginal lookup over the
matching persons. -/
def bandAvg (t : AgePrevalences) (population : List Person) (sex : Sex) (r : AgeRange) : ℚ :=
  ((bandPersons population sex r).map (fun q => t.PrevalenceD q.Sex q.Age)).sum /
    (bandCount population sex r : ℚ)

/-- The spec's per-band derivation: `pc1c2 = min(joint, pc1, pc2)`,
`P(A|B present) = pc1c2 / pc2`, `P(A|B absent) = (pc1 - pc1c2) /
(1 - pc2)`. -/
def jointBandPairSpec (c1 c2 : AgePrevalences) (population : List Person) (sex : Sex)
    (a : AgePrevalence) : AgePrevalence × AgePrevalence :=
  let pc1 := bandAvg c1 population sex a.AgeRange
  let pc2 := bandAvg c2 population sex a.AgeRange
  let pc1c2 := min (min a.Prevalence pc1) pc2
  (⟨a.AgeRange, pc1c2 / pc2⟩, ⟨a.AgeRange, (pc1 - pc1c2) / (1 - pc2)⟩)

/-- The derivation as the spec words it, per sex and per age band present
in the joint table: exactly two entries per band, computed from the
band/sex averages of the marginal lookups. -/
def buildJointPrevalenceSpec (c1 c2 c1c2 : AgePrevalences) (population : List Person) :
    AgePrevalences × AgePrevalences :=
  let rowM := (c1c2.getD Male []).map (jointBandPairSpec c1 c2 population Male)
  let rowF := (c1c2.getD Female []).map (jointBandPairSpec c1 c2 population Female)
  (rowM.map Prod.fst :: rowF.map Prod.fst :: List.replicate (c1c2.length - 2) [],
    rowM.map Prod.snd :: rowF.map Prod.snd :: List.replicate (c1c2.length - 2) [])

/-- The `expected` accumulation loop of `estimateGPPracticeConditionBias`
(lines 1419-1421): sum the marginal lookup over the practice's assigned
persons; `none` models the out-of-range panic of the lookup. -/
def sumPrevalences (prevalence : AgePrevalences) : List Person → Option ℚ
  | [] => some 0
  | p :: rest =>
    match prevalence.Prevalence p.Sex p.Age with
    | none => none
    | some v => (sumPrevalences prevalence rest).map (v + ·)

/-- The per-practice body of `estimateGPPracticeConditionBias`
(lines 1416-1425): the bias defaults to 1.0; when the reported prevalence
is positive, the expected count is accumulated by `sumPrevalences`, and
when it is positive the bias becomes `(len(people) * reported) /
expected`. -/
def estimateBiasFor (people : List Person) (reported : ℚ) (prevalence : AgePrevalences) :
    Option ℚ :=
  if 0 < reported then
    (sumPrevalences prevalence people).map (fun expected =>
      if 0 < expected then ((people.length : ℚ) * reported) / expected else 1)
  else some 1

/-- Go `func estimateGPPracticeConditionBias(population
map[GPPracticeCode][]*Person, condition QOFCondition, prevalence
AgePrevalences, gps map[GPPracticeCode]*GPPractice)` (lines 1413-1427).
The persons-by-practice map is an association list; the practice map is
partial, and a key missing from it (`gps code = none`) is dereferenced
unconditionally by the Go loop body (`gp.ConditionBias[condition] = 1.0`
on a nil pointer), modelled as `none`. -/
def estimateGPPracticeConditionBias :
    List (GPPracticeCode × List Person) → QOFCondition → AgePrevalences →
      (GPPracticeCode → Option GPPractice) → Option (GPPracticeCode → Option GPPractice)
  | [], _, _, gps => some gps
  | e :: rest, condition, prevalence, gps =>
    match gps e.1 with
    | none => none
    | some gp =>
      match estimateBiasFor e.2 (gp.ConditionPrevalence condition) prevalence with
      | none => none
      | some b =>
          estimateGPPracticeConditionBias rest condition prevalence
            (Function.update gps e.1
              (some { gp with ConditionBias := Function.update gp.ConditionBias condition b }))

/-- JointCondition (lines 220-223): the key of the derived conditional
tables. -/
structure JointCondition where
  Conditions : QOFCondition × QOFCondition
  SecondPresent : Bool
  deriving DecidableEq

/-- JointPrevalences (line 225): Go `map[JointCondition]AgePrevalences`;
a missing key is `none`. -/
abbrev JointPrevalences := JointCondition → Option AgePrevalences

/-- The chain loop of `assignConditions` (lines 1442-1449): for each
subsequent condition in the permuted order, key the conditional table by
the pair with the immediately preceding condition and its just-stored
presence (`p.Conditions[shuffled[i-1]]`), abort (`none`, Go `panic`) when
the entry is missing, and draw presence from the looked-up prevalence
times the practice's bias. -/
def assignRest (prevalences : QOFCondition → AgePrevalences) (joint : JointPrevalences)
    (bias : QOFCondition → ℚ) (sex : Sex) (age : ℤ) (u : ℕ → ℚ) (prev : QOFCondition) :
    ℕ → List QOFCondition → List Bool → Option (List Bool)
  | _, [], conds => some conds
  | i, c :: rest, conds =>
    match joint ⟨(c, prev), getCond conds prev⟩ with
    | none => none
    | some j =>
      match j.Prevalence sex age with
      | none => none
      | some q =>
          assignRest prevalences joint bias sex age u c (i + 1) rest
            (setCond conds c (decide (u i < q * bias c)))

/-- The per-person body of `assignConditions` (lines 1440-1449): draw the
first permuted condition from its marginal prevalence times the bias, then
run the chain.  `shuffled` is the fresh random permutation drawn by
`rand.Shuffle`, `u` the sequence of `rand.Float64()` draws.  A `none`
result models a panic (missing joint entry, or an out-of-range marginal
lookup); the Go code would also panic on an empty permutation
(`shuffled[0]`). -/
def assignPersonConditions (shuffled : List QOFCondition)
    (prevalences : QOFCondition → AgePrevalences) (joint : JointPrevalences)
    (bias : QOFCondition → ℚ) (u : ℕ → ℚ) (p : Person) : Option Person :=
  match shuffled with
  | [] => none
  | c0 :: rest =>
    match (prevalences c0).Prevalence p.Sex p.Age with
    | none => none
    | some q =>
      let conds := setCond p.Conditions c0 (decide (u 0 < q * bias c0))
      (assignRest prevalences joint bias p.Sex p.Age u c0 1 rest conds).map
        (fun cs => { p with Conditions := cs })

/-- The counter pass of `assignConditions` (lines 1450-1454): each
condition of the tracked list that is present on the person increments the
practice's simulated diagnosis count. -/
def tallyPerson (conditions : List QOFCondition) (counts : QOFCondition → ℤ) (p : Person) :
    QOFCondition → ℤ :=
  match conditions with
  | [] => counts
  | c :: rest =>
    tallyPerson rest
      (if getCond p.Conditions c then Function.update counts c (counts c + 1) else counts) p

/-- The people loop of `assignConditions` for one practice: assign each
person in turn (threading the per-person permutation and samples through
`rnd`, indexed from `k`), tally the present conditions, and return the
updated persons and counters. -/
def assignPeople (conditions : List QOFCondition) (prevalences : QOFCondition → AgePrevalences)
    (joint : JointPrevalences) (bias : QOFCondition → ℚ)
    (rnd : ℕ → List QOFCondition × (ℕ → ℚ)) :
    List Person → ℕ → (QOFCondition → ℤ) → Option (List Person × (QOFCondition → ℤ))
  | [], _, counts => some ([], counts)
  | p :: rest, k, counts =>
    match assignPersonConditions (rnd k).1 prevalences joint bias (rnd k).2 p with
    | none => none
    | some q =>
      (assignPeople conditions prevalences joint bias rnd rest (k + 1)
          (tallyPerson conditions counts q)).map
        (fun r => (q :: r.1, r.2))

/-- One practice's share of `assignConditions` (lines 1437-1455): run the
people loop with the practice's bias, accumulating its simulated condition
counts. -/
def assignForGP (conditions : List QOFCondition) (prevalences : QOFCondition → AgePrevalences)
    (joint : JointPrevalences) (gp : GPPractice) (people : List Person)
    (rnd : ℕ → List QOFCondition × (ℕ → ℚ)) : Option (List Person × GPPractice) :=
  (assignPeople conditions prevalences joint gp.ConditionBias rnd people 0
      gp.SimulatedConditionCounts).map
    (fun r => (r.1, { gp with SimulatedConditionCounts := r.2 }))

/-- Go `func assignConditions(population map[GPPracticeCode][]*Person,
conditions []QOFCondition, prevalences Prevalences, joint
JointPrevalences, gps map[GPPracticeCode]*GPPractice)` (lines 1429-1457).
A key missing from the practice map yields a nil pointer that the loop
body dereferences for each person of that key, so entries with at least
one person fail (`none`) while an empty entry is passed over. -/
def assignConditions :
    List (GPPracticeCode × List Person) → List QOFCondition →
      (QOFCondition → AgePrevalences) → JointPrevalences →
      (GPPracticeCode → Option GPPractice) → (GPPracticeCode → ℕ → List QOFCondition × (ℕ → ℚ)) →
      Option ((GPPracticeCode → Option GPPractice) × List (GPPracticeCode × List Person))
  | [], _, _, _, gps, _ => some (gps, [])
  | e :: rest, conditions, prevalences, joint, gps, rnd =>
    match gps e.1 with
    | none =>
        if e.2 = [] then
          (assignConditions rest conditions prevalences joint gps rnd).map
            (fun r => (r.1, e :: r.2))
        else none
    | some gp =>
      match assignForGP conditions prevalences joint gp e.2 (rnd e.1) with
      | none => none
      | some r =>
          (assignConditions rest conditions prevalences joint
              (Function.update gps e.1 (some r.2)) rnd).map
            (fun s => (s.1, (e.1, r.1) :: s.2))

/-- The grouping step of `writePopulation` (lines 2031-2035): group
persons by their assigned practice code, the no-provider sentinel included
like any other key.  Keys are in order of first appearance (Go map
iteration order is unspecified). -/
def gpKeys : List Person → List GPPracticeCode
  | [] => []
  | p :: rest =>
    let ks := gpKeys rest
    if p.GP ∈ ks then ks else p.GP :: ks

/-- The persons-by-practice association list built by `writePopulation`
(lines 2031-2035). -/
def groupByGP (people : List Person) : List (GPPracticeCode × List Person) :=
  (gpKeys people).map (fun c => (c, people.filter (fun p => p.GP = c)))

/-- Go `var DiabetesPrevalence` (lines 72-93): one row per tracked sex
(Male, Female). -/
def DiabetesPrevalence : AgePrevalences :=
  [[⟨⟨16, 25⟩, 1/100⟩, ⟨⟨25, 35⟩, 1/100⟩, ⟨⟨35, 45⟩, 3/100⟩, ⟨⟨45, 55⟩, 9/100⟩,
    ⟨⟨55, 65⟩, 13/100⟩, ⟨⟨65, 75⟩, 21/100⟩, ⟨⟨75, 0⟩, 18/100⟩],
   [⟨⟨16, 25⟩, 0⟩, ⟨⟨25, 35⟩, 1/100⟩, ⟨⟨35, 45⟩, 3/100⟩, ⟨⟨45, 55⟩, 4/100⟩,
    ⟨⟨55, 65⟩, 9/100⟩, ⟨⟨65, 75⟩, 15/100⟩, ⟨⟨75, 0⟩, 6/100⟩]]

/-- Go `var HypertensionPrevalence` (lines 96-117). -/
def HypertensionPrevalence : AgePrevalences :=
  [[⟨⟨16, 25⟩, 9/100⟩, ⟨⟨25, 35⟩, 8/100⟩, ⟨⟨35, 45⟩, 13/100⟩, ⟨⟨45, 55⟩, 29/100⟩,
    ⟨⟨55, 65⟩, 48/100⟩, ⟨⟨65, 75⟩, 58/100⟩, ⟨⟨75, 0⟩, 68/100⟩],
   [⟨⟨16, 25⟩, 1/100⟩, ⟨⟨25, 35⟩, 6/100⟩, ⟨⟨35, 45⟩, 9/100⟩, ⟨⟨45, 55⟩, 22/100⟩,
    ⟨⟨55, 65⟩, 33/100⟩, ⟨⟨65, 75⟩, 51/100⟩, ⟨⟨75, 0⟩, 65/100⟩]]

/-- Go `var COPDPrevalence` (lines 122-139). -/
def COPDPrevalence : AgePrevalences :=
  [[⟨⟨15, 45⟩, 130/10000⟩, ⟨⟨45, 55⟩, 238/10000⟩, ⟨⟨55, 65⟩, 690/10000⟩,
    ⟨⟨65, 75⟩, 1003/10000⟩, ⟨⟨75, 0⟩, 1165/10000⟩],
   [⟨⟨15, 45⟩, 89/10000⟩, ⟨⟨45, 55⟩, 200/10000⟩, ⟨⟨55, 65⟩, 411/10000⟩,
    ⟨⟨65, 75⟩, 481/10000⟩, ⟨⟨75, 0⟩, 555/10000⟩]]

/-- Go `var AllPrevalences` (lines 143-147), as a function from the
condition tag; tags outside the tracked three (for which Go's map lookup
would return a nil table whose indexing panics) are unused. -/
def AllPrevalences : QOFCondition → AgePrevalences
  | 0 => DiabetesPrevalence
  | 1 => HypertensionPrevalence
  | 2 => COPDPrevalence
  | _ => []

theorem contains_iff (r : AgeRange) (age : ℤ) :
    r.Contains age = true ↔ r.Begin ≤ age ∧ (age < r.End ∨ r.End = 0) := by
  simp [AgeRange.Contains]

theorem prevalenceScan_eq_find (bands : List AgePrevalence) (age : ℤ) :
    prevalenceScan bands age =
      ((bands.find? (fun b => b.AgeRange.Contains age)).map AgePrevalence.Prevalence).getD 0 := by
  induction bands with
  | nil => rfl
  | cons b rest ih =>
    simp only [prevalenceScan, List.find?]
    rcases h : b.AgeRange.Contains age with _ | _ <;> simp [h, ih]

/-- C7: the prevalence lookup returns the probability of the first band in
list order containing the age, where a band contains an age iff
`age ≥ begin` and (`age < end` or `end = 0`); an age exactly equal to a
band's end value is not in that band, a band with `end = 0` contains every
age from its begin value up, and the lookup returns 0.0, not an error,
when no band contains the age. -/
theorem claim7_prevalence_lookup (r : AgeRange) (bands : List AgePrevalence)
    (a : AgePrevalences) (sex : Sex) (age : ℤ) :
    (r.Contains age = true ↔ r.Begin ≤ age ∧ (age < r.End ∨ r.End = 0)) ∧
    (age = r.End → r.End ≠ 0 → r.Contains age = false) ∧
    (r.End = 0 → r.Begin ≤ age → r.Contains age = true) ∧
    (prevalenceScan bands age =
      ((bands.find? (fun b => b.AgeRange.Contains age)).map AgePrevalence.Prevalence).getD 0) ∧
    ((∀ b ∈ bands, b.AgeRange.Contains age = false) → prevalenceScan bands age = 0) ∧
    (sex < a.length →
      a.Prevalence sex age =
        some ((((a.getD sex []).find? (fun b => b.AgeRange.Contains age)).map
          AgePrevalence.Prevalence).getD 0)) := by
  refine ⟨contains_iff r age, ?_, ?_, prevalenceScan_eq_find bands age, ?_, ?_⟩
  · rintro rfl hne
    simp only [AgeRange.Contains]
    simp only [Bool.and_eq_false_iff, Bool.or_eq_false_iff]
    right
    constructor
    · simp
    · simpa using hne
  · intro h0 hbegin
    rw [contains_iff]
    exact ⟨hbegin, Or.inr h0⟩
  · intro hnone
    rw [prevalenceScan_eq_find, List.find?_eq_none.mpr]
    · rfl
    · intro b hb
      simp [hnone b hb]
  · intro hsex
    rw [Prevalence_eq_some hsex, AgePrevalences.PrevalenceD, prevalenceScan_eq_find]

/-- Witness for C7 at a concrete table: the band list of
`DiabetesPrevalence` for males, age 25 (the end of the first band, caught
by the second), age 100 (caught by the open top band), and age 3 (no
containing band, lookup 0). -/
theorem claim7_prevalence_lookup_witness :
    (AgeRange.mk 16 25).Contains 25 = false ∧
      (AgeRange.mk 75 0).Contains 100 = true ∧
      DiabetesPrevalence.Prevalence Male 25 = some (1/100) ∧
      DiabetesPrevalence.Prevalence Male 3 = some 0 := by
  refine ⟨(claim7_prevalence_lookup ⟨16, 25⟩ [] [] 0 25).2.1 rfl (by decide),
    (claim7_prevalence_lookup ⟨75, 0⟩ [] [] 0 100).2.2.1 rfl (by decide), ?_, ?_⟩
  · rw [(claim7_prevalence_lookup ⟨0, 0⟩ [] DiabetesPrevalence Male 25).2.2.2.2.2 (by decide)]
    simp [DiabetesPrevalence, AgeRange.Contains, List.find?, Male]
  · rw [(claim7_prevalence_lookup ⟨0, 0⟩ [] DiabetesPrevalence Male 3).2.2.2.2.2 (by decide)]
    simp [DiabetesPrevalence, AgeRange.Contains, List.find?, Male]

/-- C10: for a nonempty probability list the draw returns an index between
0 and length - 1 inclusive, whatever the entries sum to; for the empty
list it returns -1. -/
theorem claim10_choose_range (p : Probabilities) (s : ℚ) :
    (p ≠ [] → 0 ≤ p.chooseWith s ∧ p.chooseWith s < (p.length : ℤ)) ∧
      (p = [] → p.chooseWith s = -1) :=
  chooseWith_range p s

/-- Witness for C10: a list whose entries sum to more than 1, a sample
past the total, and the empty list. -/
theorem claim10_choose_range_witness :
    (0 ≤ Probabilities.chooseWith [3/4, 3/4] 2 ∧
      Probabilities.chooseWith [3/4, 3/4] 2 < 2) ∧
      Probabilities.chooseWith [] (1/2) = -1 :=
  ⟨(claim10_choose_range [3/4, 3/4] 2).1 (List.cons_ne_nil _ _),
    (claim10_choose_range [] (1/2)).2 rfl⟩

/-- Modelled from the spec's words: the unnormalized selection weight of a
candidate is a distance weight — 1.0 if the distance is at most the
750-unit proximity threshold, else threshold/distance — times a capacity
weight — the registered list size divided by 20000, clamped to
[0.01, 1.0]. -/
def gpSelectionWeightSpec (d : ℚ) (listSize : ℤ) : ℚ :=
  (if d ≤ GPPracticeEqualDistanceLimitM then 1 else GPPracticeEqualDistanceLimitM / d) *
    clamp ((listSize : ℚ) / GPPracticeMaxListSize) (1/100) 1

theorem mulf_map_map {α : Type} (l : List α) (f g : α → ℚ) :
    mulf (l.map f) (l.map g) = l.map (fun x => f x * g x) := by
  induction l with
  | nil => rfl
  | cons x xs ih =>
    simp only [List.map_cons, mulf, List.zipWith_cons_cons]
    rw [← mulf, ih]

theorem distanceWeight_eq (d : ℚ) :
    (if d < GPPracticeEqualDistanceLimitM then 1
      else 1 / (d / GPPracticeEqualDistanceLimitM)) =
    (if d ≤ GPPracticeEqualDistanceLimitM then 1 else GPPracticeEqualDistanceLimitM / d) := by
  rcases lt_trichotomy d GPPracticeEqualDistanceLimitM with h | h | h
  · rw [if_pos h, if_pos h.le]
  · subst h
    norm_num [GPPracticeEqualDistanceLimitM]
  · rw [if_neg (not_lt.mpr h.le), if_neg (not_le.mpr h), one_div, inv_div]

theorem filter_getD_mem (l : List GPPracticeCode) (q : GPPracticeCode → Bool) (i : ℕ)
    (hi : i < (l.filter q).length) (d : GPPracticeCode) :
    (l.filter q).getD i d ∈ l.filter q := by
  rw [List.getD_eq_getElem?_getD, List.getElem?_eq_getElem hi]
  exact List.getElem_mem _

theorem chooseNearbyGP_eq (nearbyGPs : List GPPracticeCode) (gps : GPPracticeCode → GPPractice)
    (dist : GPPracticeCode → ℚ) (sample : ℚ)
    (hne : nearbyGPs.filter (fun gp => 0 < (gps gp).ListSize) ≠ []) :
    chooseNearbyGP nearbyGPs gps dist sample =
      (nearbyGPs.filter (fun gp => 0 < (gps gp).ListSize)).getD
        (Probabilities.chooseWith
          (normalise ((nearbyGPs.filter (fun gp => 0 < (gps gp).ListSize)).map
            (fun c => gpSelectionWeightSpec (dist c) ((gps c).ListSize)))) sample).toNat
        GPPracticeCodeInvalid := by
  simp only [chooseNearbyGP]
  rw [if_neg hne, mulf_map_map]
  have hmap : ∀ filtered : List GPPracticeCode,
      filtered.map (fun code =>
        (if dist code < GPPracticeEqualDistanceLimitM then 1
          else 1 / (dist code / GPPracticeEqualDistanceLimitM)) *
          clamp (((gps code).ListSize : ℚ) / GPPracticeMaxListSize) (1/100) 1) =
      filtered.map (fun c => gpSelectionWeightSpec (dist c) ((gps c).ListSize)) := by
    intro filtered
    refine List.map_congr_left (fun c _ => ?_)
    rw [gpSelectionWeightSpec, distanceWeight_eq]
  rw [hmap]

theorem chooseNearbyGP_mem (nearbyGPs : List GPPracticeCode) (gps : GPPracticeCode → GPPractice)
    (dist : GPPracticeCode → ℚ) (sample : ℚ)
    (hne : nearbyGPs.filter (fun gp => 0 < (gps gp).ListSize) ≠ []) :
    chooseNearbyGP nearbyGPs gps dist sample ∈
      nearbyGPs.filter (fun gp => 0 < (gps gp).ListSize) := by
  rw [chooseNearbyGP_eq nearbyGPs gps dist sample hne]
  apply filter_getD_mem
  have hlp : (normalise ((nearbyGPs.filter (fun gp => 0 < (gps gp).ListSize)).map
      (fun c => gpSelectionWeightSpec (dist c) ((gps c).ListSize)))).length =
      (nearbyGPs.filter (fun gp => 0 < (gps gp).ListSize)).length := by
    simp [normalise]
  have hpne : normalise ((nearbyGPs.filter (fun gp => 0 < (gps gp).ListSize)).map
      (fun c => gpSelectionWeightSpec (dist c) ((gps c).ListSize))) ≠ [] := by
    intro hempty
    rw [hempty] at hlp
    exact hne (List.length_eq_zero.mp hlp.symm)
  have hrange := (chooseWith_range _ sample).1 hpne
  omega

/-- C3: provider selection removes candidates with a zero registered list
size and returns the sentinel exactly when none remain; otherwise the
chosen candidate is drawn, at the supplied uniform sample, from the
normalized list of spec selection weights (distance weight times clamped
capacity weight); in the two-candidate scenario with equal list size 10000
at distances 500 and 3000 the first weight is 4 times the second.  The
hypothesis excludes the empty sentinel code from the candidate list: the
Go map lookup would nil-panic on it. -/
theorem claim3_gp_selection (nearbyGPs : List GPPracticeCode) (gps : GPPracticeCode → GPPractice)
    (dist : GPPracticeCode → ℚ) (sample : ℚ)
    (hinv : GPPracticeCodeInvalid ∉ nearbyGPs) :
    (chooseNearbyGP nearbyGPs gps dist sample = GPPracticeCodeInvalid ↔
      nearbyGPs.filter (fun gp => 0 < (gps gp).ListSize) = []) ∧
    (∀ filtered, filtered = nearbyGPs.filter (fun gp => 0 < (gps gp).ListSize) → filtered ≠ [] →
      chooseNearbyGP nearbyGPs gps dist sample =
        filtered.getD (Probabilities.chooseWith
          (normalise (filtered.map (fun c => gpSelectionWeightSpec (dist c) ((gps c).ListSize))))
          sample).toNat GPPracticeCodeInvalid) ∧
    gpSelectionWeightSpec 500 10000 = 4 * gpSelectionWeightSpec 3000 10000 := by
  refine ⟨⟨?_, ?_⟩, ?_, ?_⟩
  · intro h
    by_contra hne
    have hmem := chooseNearbyGP_mem nearbyGPs gps dist sample hne
    rw [h] at hmem
    exact hinv (List.mem_of_mem_filter hmem)
  · intro h
    simp only [chooseNearbyGP]
    rw [if_pos h]
  · intro filtered hf hne
    subst hf
    exact chooseNearbyGP_eq nearbyGPs gps dist sample hne
  · norm_num [gpSelectionWeightSpec, clamp, GPPracticeEqualDistanceLimitM, GPPracticeMaxListSize]

/-- Witness for C3: the concrete weight-ratio scenario, and a single
candidate with list size 0, which is filtered out so that the sentinel is
returned. -/
theorem claim3_gp_selection_witness :
    gpSelectionWeightSpec 500 10000 = 4 * gpSelectionWeightSpec 3000 10000 ∧
      chooseNearbyGP ["Z"] (fun _ => ⟨"Z", 0, fun _ => 0, fun _ => 1, 0, fun _ => 0⟩)
        (fun _ => 100) (1/2) = GPPracticeCodeInvalid :=
  ⟨(claim3_gp_selection [] (fun _ => ⟨"", 0, fun _ => 0, fun _ => 1, 0, fun _ => 0⟩)
      (fun _ => 0) 0 (by decide)).2.2,
    (claim3_gp_selection ["Z"] (fun _ => ⟨"Z", 0, fun _ => 0, fun _ => 1, 0, fun _ => 0⟩)
      (fun _ => 100) (1/2) (by decide)).1.mpr (by decide)⟩

/-- A prevalence table is well formed when every band probability lies in
[0, 1]. -/
def WellFormedTable (a : AgePrevalences) : Prop :=
  ∀ row ∈ a, ∀ b ∈ row, 0 ≤ b.Prevalence ∧ b.Prevalence ≤ 1

theorem prevalenceScan_mem {bands : List AgePrevalence}
    (h : ∀ b ∈ bands, 0 ≤ b.Prevalence ∧ b.Prevalence ≤ 1) (age : ℤ) :
    0 ≤ prevalenceScan bands age ∧ prevalenceScan bands age ≤ 1 := by
  induction bands with
  | nil => exact ⟨le_refl 0, by simp [prevalenceScan]⟩
  | cons b rest ih =>
    simp only [prevalenceScan]
    split
    · exact h b (List.mem_cons_self b rest)
    · exact ih (fun x hx => h x (List.mem_cons_of_mem b hx))

theorem prevalenceD_mem {a : AgePrevalences} (hw : WellFormedTable a) (sex : Sex) (age : ℤ) :
    0 ≤ a.PrevalenceD sex age ∧ a.PrevalenceD sex age ≤ 1 := by
  unfold AgePrevalences.PrevalenceD
  by_cases hs : sex < a.length
  · refine prevalenceScan_mem (fun b hb => hw (a.getD sex []) ?_ b hb) age
    rw [List.getD_eq_getElem?_getD, List.getElem?_eq_getElem hs]
    exact List.getElem_mem hs
  · rw [List.getD_eq_default _ _ (not_lt.mp hs)]
    exact ⟨le_refl 0, by simp [prevalenceScan]⟩

theorem list_sum_le_length {l : List ℚ} (h : ∀ x ∈ l, x ≤ 1) : l.sum ≤ (l.length : ℚ) := by
  induction l with
  | nil => simp
  | cons x xs ih =>
    simp only [List.sum_cons, List.length_cons]
    push_cast
    have hx := h x (List.mem_cons_self x xs)
    have hxs := ih (fun y hy => h y (List.mem_cons_of_mem x hy))
    linarith

theorem bandAvg_mem {t : AgePrevalences} (hw : WellFormedTable t) (pop : List Person)
    (sex : Sex) (r : AgeRange) :
    0 ≤ bandAvg t pop sex r ∧ bandAvg t pop sex r ≤ 1 := by
  unfold bandAvg bandCount
  by_cases hn : (bandPersons pop sex r).length = 0
  · rw [hn]
    push_cast
    rw [div_zero]
    exact ⟨le_refl 0, by norm_num⟩
  · have hpos : (0 : ℚ) < ((bandPersons pop sex r).length : ℚ) := by
      have : 0 < (bandPersons pop sex r).length := Nat.pos_of_ne_zero hn
      exact_mod_cast this
    constructor
    · refine div_nonneg (List.sum_nonneg fun x hx => ?_) hpos.le
      obtain ⟨q, _, rfl⟩ := List.mem_map.mp hx
      exact (prevalenceD_mem hw q.Sex q.Age).1
    · rw [div_le_one hpos]
      have := list_sum_le_length (l := (bandPersons pop sex r).map
        (fun q => t.PrevalenceD q.Sex q.Age)) (fun x hx => by
          obtain ⟨q, _, rfl⟩ := List.mem_map.mp hx
          exact (prevalenceD_mem hw q.Sex q.Age).2)
      rwa [List.length_map] at this

theorem jointFold_eq (c1 c2 : AgePrevalences) (sex : Sex) (r : AgeRange) (pop : List Person)
    (init : ℚ × ℚ × ℚ) :
    pop.foldl (fun (s : ℚ × ℚ × ℚ) person =>
      if person.Sex = sex ∧ r.Contains person.Age then
        (s.1 + 1, s.2.1 + c1.PrevalenceD person.Sex person.Age,
          s.2.2 + c2.PrevalenceD person.Sex person.Age)
      else s) init =
    (init.1 + (bandCount pop sex r : ℚ),
      init.2.1 + ((bandPersons pop sex r).map (fun q => c1.PrevalenceD q.Sex q.Age)).sum,
      init.2.2 + ((bandPersons pop sex r).map (fun q => c2.PrevalenceD q.Sex q.Age)).sum) := by
  induction pop generalizing init with
  | nil => simp [bandPersons, bandCount]
  | cons p rest ih =>
    by_cases hp : p.Sex = sex ∧ r.Contains p.Age
    · rw [List.foldl_cons, if_pos hp, ih]
      have hfil : bandPersons (p :: rest) sex r = p :: bandPersons rest sex r := by
        simp only [bandPersons, List.filter_cons]
        rw [if_pos (by simpa using hp)]
      simp only [bandCount, hfil, List.length_cons, List.map_cons, List.sum_cons]
      refine congrArg₂ Prod.mk ?_ (congrArg₂ Prod.mk ?_ ?_)
      · push_cast
        ring
      · ring
      · ring
    · rw [List.foldl_cons, if_neg hp, ih]
      have hfil : bandPersons (p :: rest) sex r = bandPersons rest sex r := by
        simp only [bandPersons, List.filter_cons]
        rw [if_neg (by simpa using hp)]
      simp only [bandCount, hfil]

theorem jointBandPair_eq_spec (c1 c2 : AgePrevalences) (pop : List Person) (sex : Sex)
    (a : AgePrevalence) :
    jointBandPair c1 c2 pop sex a = jointBandPairSpec c1 c2 pop sex a := by
  simp only [jointBandPair, jointBandPairSpec, jointFold_eq, bandAvg, zero_add]

/-- C2: the comorbidity derivation computes, for each tracked sex and each
band of the joint table, pc1 and pc2 as the averages of the marginal
lookups over the persons of matching sex and band, takes the effective
joint pc1c2 = min(joint, pc1, pc2), and emits exactly the two entries
pc1c2 / pc2 and (pc1 - pc1c2) / (1 - pc2) for the band: the source
function equals the spec-worded derivation. -/
theorem claim2_joint_derivation (c1 c2 c1c2 : AgePrevalences) (population : List Person) :
    buildJointPrevalence c1 c2 c1c2 population =
      buildJointPrevalenceSpec c1 c2 c1c2 population := by
  have hM : jointBandPair c1 c2 population Male = jointBandPairSpec c1 c2 population Male :=
    funext (jointBandPair_eq_spec c1 c2 population Male)
  have hF : jointBandPair c1 c2 population Female = jointBandPairSpec c1 c2 population Female :=
    funext (jointBandPair_eq_spec c1 c2 population Female)
  simp only [buildJointPrevalence, buildJointPrevalenceSpec, jointRow, hM, hF]

/-- C1 (amended): for a well-formed joint band with at least one matching
person and pc2 not 0 and not 1, P(A|B present) lies in [0, 1] and
P(A|B absent) is nonnegative; P(A|B absent) is at most 1 only under the
additional union-bound hypothesis pc1 + pc2 - pc1c2 ≤ 1, which the
derivation does not enforce. -/
theorem claim1_amended (c1 c2 : AgePrevalences) (pop : List Person) (sex : Sex)
    (a : AgePrevalence) (hw1 : WellFormedTable c1) (hw2 : WellFormedTable c2)
    (ha0 : 0 ≤ a.Prevalence)
    (_hn : bandCount pop sex a.AgeRange ≠ 0)
    (h0 : bandAvg c2 pop sex a.AgeRange ≠ 0) (h1 : bandAvg c2 pop sex a.AgeRange ≠ 1) :
    0 ≤ (jointBandPair c1 c2 pop sex a).1.Prevalence ∧
    (jointBandPair c1 c2 pop sex a).1.Prevalence ≤ 1 ∧
    0 ≤ (jointBandPair c1 c2 pop sex a).2.Prevalence ∧
    (bandAvg c1 pop sex a.AgeRange + bandAvg c2 pop sex a.AgeRange -
        min (min a.Prevalence (bandAvg c1 pop sex a.AgeRange)) (bandAvg c2 pop sex a.AgeRange) ≤ 1 →
      (jointBandPair c1 c2 pop sex a).2.Prevalence ≤ 1) := by
  rw [jointBandPair_eq_spec]
  simp only [jointBandPairSpec]
  set pc1 := bandAvg c1 pop sex a.AgeRange with hpc1def
  set pc2 := bandAvg c2 pop sex a.AgeRange with hpc2def
  set pc1c2 := min (min a.Prevalence pc1) pc2 with hmindef
  have hpc1 := bandAvg_mem hw1 pop sex a.AgeRange
  have hpc2 := bandAvg_mem hw2 pop sex a.AgeRange
  rw [← hpc1def] at hpc1
  rw [← hpc2def] at hpc2
  have hpc2pos : 0 < pc2 := lt_of_le_of_ne hpc2.1 (Ne.symm h0)
  have hpc2lt1 : pc2 < 1 := lt_of_le_of_ne hpc2.2 h1
  have hmin0 : 0 ≤ pc1c2 := le_min (le_min ha0 hpc1.1) hpc2.1
  have hminpc2 : pc1c2 ≤ pc2 := min_le_right _ _
  have hminpc1 : pc1c2 ≤ pc1 := (min_le_left _ _).trans (min_le_right _ _)
  refine ⟨div_nonneg hmin0 hpc2pos.le, (div_le_one hpc2pos).mpr hminpc2,
    div_nonneg (sub_nonneg.mpr hminpc1) (sub_pos.mpr hpc2lt1).le, fun hsum => ?_⟩
  rw [div_le_one (sub_pos.mpr hpc2lt1)]
  linarith

/-- A two-row table giving probability 9/10 to every age, for the C1
counterexample and witnesses. -/
def cexTable : AgePrevalences := [[⟨⟨0, 0⟩, 9/10⟩], [⟨⟨0, 0⟩, 9/10⟩]]

/-- A single male resident aged 30, for the C1 counterexample and
witnesses. -/
def cexPerson : Person := ⟨0, Male, 30, "L", "", [false, false, false]⟩

/-- A joint band reporting prevalence 1/2, for the C1 counterexample. -/
def cexBand : AgePrevalence := ⟨⟨0, 0⟩, 1/2⟩

theorem cex_bandAvg : bandAvg cexTable [cexPerson] Male cexBand.AgeRange = 9/10 := by
  simp [bandAvg, bandPersons, bandCount, cexTable, cexPerson, cexBand, Male,
    AgeRange.Contains, AgePrevalences.PrevalenceD, prevalenceScan, List.filter]

/-- Counterexample to C1 as stated: with both marginal tables well formed
at 9/10, a single matching person, and a joint band prevalence of 1/2
(pc2 = 9/10, neither 0 nor 1), the derivation emits
P(A|B absent) = (9/10 - 1/2) / (1 - 9/10) = 4 > 1. -/
theorem claim1_counterexample :
    WellFormedTable cexTable ∧
    bandCount [cexPerson] Male cexBand.AgeRange ≠ 0 ∧
    bandAvg cexTable [cexPerson] Male cexBand.AgeRange = 9/10 ∧
    bandAvg cexTable [cexPerson] Male cexBand.AgeRange ≠ 0 ∧
    bandAvg cexTable [cexPerson] Male cexBand.AgeRange ≠ 1 ∧
    0 ≤ cexBand.Prevalence ∧ cexBand.Prevalence ≤ 1 ∧
    (jointBandPair cexTable cexTable [cexPerson] Male cexBand).2.Prevalence = 4 ∧
    ¬ ((jointBandPair cexTable cexTable [cexPerson] Male cexBand).2.Prevalence ≤ 1) ∧
    (buildJointPrevalence cexTable cexTable [[cexBand], []] [cexPerson]).2 =
      [[⟨⟨0, 0⟩, 4⟩], []] := by
  have hval : (jointBandPair cexTable cexTable [cexPerson] Male cexBand).2.Prevalence = 4 := by
    rw [jointBandPair_eq_spec]
    simp only [jointBandPairSpec, cex_bandAvg]
    norm_num [cexBand, min_def]
  have hpair : jointBandPair cexTable cexTable [cexPerson] Male cexBand =
      (⟨⟨0, 0⟩, 1/2 / (9/10)⟩, ⟨⟨0, 0⟩, 4⟩) := by
    rw [jointBandPair_eq_spec]
    simp only [jointBandPairSpec, cex_bandAvg]
    norm_num [cexBand, min_def]
  refine ⟨?_, ?_, cex_bandAvg, by rw [cex_bandAvg]; norm_num, by rw [cex_bandAvg]; norm_num,
    by norm_num [cexBand], by norm_num [cexBand], hval, by rw [hval]; norm_num, ?_⟩
  · intro row hr b hb
    simp only [cexTable, List.mem_cons, List.not_mem_nil, or_false] at hr
    rcases hr with rfl | rfl <;>
      (simp only [List.mem_cons, List.not_mem_nil, or_false] at hb; subst hb; norm_num)
  · simp [bandCount, bandPersons, cexPerson, cexBand, Male, AgeRange.Contains]
  · simp [buildJointPrevalence, jointRow, Male, Female, List.getD, List.get?,
      List.replicate]
    exact congrArg Prod.snd hpair

/-- Witness for the amended C1: a joint band prevalence 1/4 with both
marginals averaging 1/2 satisfies every hypothesis, including the union
bound, and both emitted probabilities land in [0, 1]. -/
theorem claim1_amended_witness :
    0 ≤ (jointBandPair cexTable cexTable [cexPerson] Male ⟨⟨0, 0⟩, 1/4⟩).1.Prevalence ∧
      (jointBandPair cexTable cexTable [cexPerson] Male ⟨⟨0, 0⟩, 1/4⟩).1.Prevalence ≤ 1 ∧
      0 ≤ (jointBandPair cexTable cexTable [cexPerson] Male ⟨⟨0, 0⟩, 1/4⟩).2.Prevalence := by
  have hw : WellFormedTable cexTable := by
    intro row hr b hb
    simp only [cexTable, List.mem_cons, List.not_mem_nil, or_false] at hr
    rcases hr with rfl | rfl <;>
      (simp only [List.mem_cons, List.not_mem_nil, or_false] at hb; subst hb; norm_num)
  have h := claim1_amended cexTable cexTable [cexPerson] Male ⟨⟨0, 0⟩, 1/4⟩ hw hw
    (by norm_num)
    (by simp [bandCount, bandPersons, cexPerson, Male, AgeRange.Contains])
    (by rw [show (AgePrevalence.mk ⟨0, 0⟩ (1/4)).AgeRange = cexBand.AgeRange from rfl,
          cex_bandAvg]; norm_num)
    (by rw [show (AgePrevalence.mk ⟨0, 0⟩ (1/4)).AgeRange = cexBand.AgeRange from rfl,
          cex_bandAvg]; norm_num)
  exact ⟨h.1, h.2.1, h.2.2.1⟩

/-- The C5 invariant: every practice's simulated list size equals the
number of persons whose assigned practice is it; persons holding the
no-provider sentinel are counted by no practice. -/
def ListSizeInv (st : BuildState) : Prop :=
  ∀ code, code ≠ GPPracticeCodeInvalid →
    (st.gps code).SimulatedListSize = (st.people.countP (fun p => decide (p.GP = code)) : ℤ)

theorem personStep_inv (lsoa : LSOA) (possibleGPs : List GPPracticeCode)
    (dist : GPPracticeCode → ℚ) (rnd : ℚ × ℚ × ℚ) (st : BuildState) (h : ListSizeInv st) :
    ListSizeInv (personStep lsoa possibleGPs dist rnd st) := by
  intro code hcode
  simp only [personStep]
  set gp := chooseNearbyGP possibleGPs st.gps dist rnd.2.2 with hgpdef
  by_cases hgp : gp = GPPracticeCodeInvalid
  · rw [if_pos hgp]
    simp only [List.countP_append, List.countP_cons, List.countP_nil, hgp]
    rw [decide_eq_false (Ne.symm hcode)]
    push_cast
    rw [h code hcode]
    simp
  · rw [if_neg hgp]
    simp only [List.countP_append, List.countP_cons, List.countP_nil]
    by_cases hc : gp = code
    · subst hc
      rw [Function.update_same, decide_eq_true rfl]
      push_cast
      rw [h gp hcode]
      simp
    · rw [Function.update_noteq (Ne.symm hc), decide_eq_false hc]
      push_cast
      rw [h code hcode]
      simp

theorem buildLSOA_inv (lsoa : LSOA) (possibleGPs : List GPPracticeCode)
    (dist : GPPracticeCode → ℚ) (rnd : ℕ → ℚ × ℚ × ℚ) :
    ∀ (n : ℕ) (st : BuildState), ListSizeInv st →
      ListSizeInv (buildLSOA lsoa possibleGPs dist rnd n st)
  | 0, _, h => h
  | Nat.succ n, st, h =>
    buildLSOA_inv lsoa possibleGPs dist rnd n _
      (personStep_inv lsoa possibleGPs dist (rnd st.people.length) st h)

theorem buildPopulation_foldlM_inv (lsoas : LSOACode → Option LSOA)
    (nearbyGPs : LSOACode → List GPPracticeCode) (dist : GPPracticeCode → ℚ)
    (rnd : ℕ → ℚ × ℚ × ℚ) :
    ∀ (homes : List LSOACode) (st : BuildState), ListSizeInv st →
      ∀ res, (homes.foldlM (fun st home =>
          match lsoas home with
          | some lsoa =>
              Except.ok (buildLSOA lsoa (nearbyGPs home) dist rnd (sum lsoa.PersonsByAge).toNat st)
          | none => Except.error ("no LSOA " ++ home)) st : Except String BuildState) =
          Except.ok res →
        ListSizeInv res := by
  intro homes
  induction homes with
  | nil =>
    intro st h res hres
    simp only [List.foldlM_nil] at hres
    cases hres
    exact h
  | cons home rest ih =>
    intro st h res hres
    rw [List.foldlM_cons] at hres
    cases hl : lsoas home with
    | some lsoa =>
      rw [hl] at hres
      exact ih _ (buildLSOA_inv lsoa (nearbyGPs home) dist rnd _ st h) res hres
    | none =>
      rw [hl] at hres
      cases hres

/-- C5: the list-size invariant holds at every intermediate point of the
population build (one person sampled at a time) and at its end, starting
from simulated list sizes of zero: each practice's simulated list size
equals the number of persons assigned to it, and sentinel-carrying
persons increment no practice. -/
theorem claim5_list_size_invariant :
    (∀ (lsoa : LSOA) (possibleGPs : List GPPracticeCode) (dist : GPPracticeCode → ℚ)
        (rnd : ℚ × ℚ × ℚ) (st : BuildState), ListSizeInv st →
        ListSizeInv (personStep lsoa possibleGPs dist rnd st)) ∧
    (∀ (homes : List LSOACode) (lsoas : LSOACode → Option LSOA)
        (nearbyGPs : LSOACode → List GPPracticeCode) (gps0 : GPPracticeCode → GPPractice)
        (dist : GPPracticeCode → ℚ) (rnd : ℕ → ℚ × ℚ × ℚ),
        (∀ code, code ≠ GPPracticeCodeInvalid → (gps0 code).SimulatedListSize = 0) →
        ∀ res, buildPopulation homes lsoas nearbyGPs gps0 dist rnd = Except.ok res →
          ListSizeInv res) := by
  refine ⟨personStep_inv, ?_⟩
  intro homes lsoas nearbyGPs gps0 dist rnd h0 res hres
  refine buildPopulation_foldlM_inv lsoas nearbyGPs dist rnd homes ⟨[], gps0, 0⟩ ?_ res hres
  intro code hcode
  simp [h0 code hcode]

/-- Witness for C5: a one-person step from the empty state, and a
zero-region build, both starting from zeroed simulated list sizes. -/
theorem claim5_list_size_invariant_witness :
    ListSizeInv (personStep ⟨"L", [1], [1], [0]⟩ []
      (fun _ => 0) (0, 0, 0) ⟨[], fun _ => ⟨"", 0, fun _ => 0, fun _ => 1, 0, fun _ => 0⟩, 0⟩) ∧
    ListSizeInv ⟨[], fun _ => ⟨"", 0, fun _ => 0, fun _ => 1, 0, fun _ => 0⟩, 0⟩ :=
  ⟨claim5_list_size_invariant.1 ⟨"L", [1], [1], [0]⟩ [] (fun _ => 0) (0, 0, 0)
      ⟨[], fun _ => ⟨"", 0, fun _ => 0, fun _ => 1, 0, fun _ => 0⟩, 0⟩
      (fun _ _ => rfl),
    claim5_list_size_invariant.2 [] (fun _ => none) (fun _ => []) _ (fun _ => 0) (fun _ => (0, 0, 0))
      (fun _ _ => rfl) _ rfl⟩

theorem sumPrevalences_eq {prevalence : AgePrevalences} :
    ∀ {people : List Person}, (∀ p ∈ people, p.Sex < prevalence.length) →
      sumPrevalences prevalence people =
        some ((people.map (fun p => prevalence.PrevalenceD p.Sex p.Age)).sum) := by
  intro people
  induction people with
  | nil => intro; rfl
  | cons p rest ih =>
    intro hs
    simp only [sumPrevalences]
    rw [Prevalence_eq_some (hs p (List.mem_cons_self p rest)),
      ih (fun q hq => hs q (List.mem_cons_of_mem p hq))]
    simp

theorem estimateBiasFor_eq (people : List Person) (reported : ℚ) (prevalence : AgePrevalences)
    (hrep : 0 ≤ reported) (hs : ∀ p ∈ people, p.Sex < prevalence.length) :
    estimateBiasFor people reported prevalence =
      some (if reported ≠ 0 ∧
          0 < ((people.map fun p => prevalence.PrevalenceD p.Sex p.Age).sum) then
        ((people.length : ℚ) * reported) /
          ((people.map fun p => prevalence.PrevalenceD p.Sex p.Age).sum)
      else 1) := by
  unfold estimateBiasFor
  by_cases h : 0 < reported
  · rw [if_pos h, sumPrevalences_eq hs]
    simp only [Option.map_some']
    congr 1
    by_cases hsum : 0 < ((people.map fun p => prevalence.PrevalenceD p.Sex p.Age).sum)
    · rw [if_pos hsum, if_pos ⟨ne_of_gt h, hsum⟩]
    · rw [if_neg hsum, if_neg (fun hc => hsum hc.2)]
  · rw [if_neg h]
    have hz : reported = 0 := le_antisymm (not_lt.mp h) hrep
    rw [if_neg (fun hc => hc.1 hz)]

theorem estimateGPPBias_preserve (condition : QOFCondition) (prevalence : AgePrevalences) :
    ∀ (population : List (GPPracticeCode × List Person))
      (gps out : GPPracticeCode → Option GPPractice) (code : GPPracticeCode),
      code ∉ population.map Prod.fst →
      estimateGPPracticeConditionBias population condition prevalence gps = some out →
      out code = gps code := by
  intro population
  induction population with
  | nil =>
    intro gps out code _ hout
    simp only [estimateGPPracticeConditionBias, Option.some.injEq] at hout
    rw [← hout]
  | cons e rest ih =>
    intro gps out code hnmem hout
    simp only [estimateGPPracticeConditionBias] at hout
    split at hout
    · cases hout
    · split at hout
      · cases hout
      · have hne : e.1 ≠ code := fun he =>
          hnmem (he ▸ List.mem_map_of_mem Prod.fst (List.mem_cons_self e rest))
        rw [ih _ out code (fun hc => hnmem (List.mem_cons_of_mem _ hc)) hout,
          Function.update_noteq (Ne.symm hne)]

theorem estimateGPPBias_result (condition : QOFCondition) (prevalence : AgePrevalences) :
    ∀ (population : List (GPPracticeCode × List Person))
      (gps out : GPPracticeCode → Option GPPractice) (code : GPPracticeCode)
      (people : List Person) (gp : GPPractice),
      (population.map Prod.fst).Nodup →
      (code, people) ∈ population →
      gps code = some gp →
      estimateGPPracticeConditionBias population condition prevalence gps = some out →
      ∃ b, estimateBiasFor people (gp.ConditionPrevalence condition) prevalence = some b ∧
        out code = some { gp with ConditionBias := Function.update gp.ConditionBias condition b } := by
  intro population
  induction population with
  | nil =>
    intro gps out code people gp _ hmem
    cases hmem
  | cons e rest ih =>
    intro gps out code people gp hnodup hmem hgp hout
    simp only [estimateGPPracticeConditionBias] at hout
    rcases List.mem_cons.mp hmem with he | hrest
    · subst he
      split at hout
      · next hgps =>
        rw [hgp] at hgps
        cases hgps
      · next gp2 hgps =>
        rw [hgp] at hgps
        cases hgps
        split at hout
        · cases hout
        · next b hb =>
          refine ⟨b, hb, ?_⟩
          have hnin : code ∉ rest.map Prod.fst := by
            simp only [List.map_cons, List.nodup_cons] at hnodup
            exact hnodup.1
          rw [estimateGPPBias_preserve condition prevalence rest _ out code hnin hout,
            Function.update_same]
    · have hkey : code ∈ rest.map Prod.fst :=
        List.mem_map_of_mem Prod.fst hrest
      have hne : e.1 ≠ code := by
        simp only [List.map_cons, List.nodup_cons] at hnodup
        exact fun he => hnodup.1 (he ▸ hkey)
      split at hout
      · cases hout
      · split at hout
        · cases hout
        · refine ih _ out code people gp ?_ hrest ?_ hout
          · simp only [List.map_cons, List.nodup_cons] at hnodup
            exact hnodup.2
          · rw [Function.update_noteq (Ne.symm hne), hgp]

/-- C4: when the bias estimation succeeds, every practice in the
persons-by-practice map has its bias for the condition set to
(assigned count x reported prevalence) / expected when the reported
prevalence is nonzero and the expected sum of marginal lookups is
positive, and to exactly 1.0 otherwise — in particular 1.0 whenever the
reported prevalence is 0.  Reported prevalences are fractions, hence the
nonnegativity hypothesis; the sex-bound hypothesis keeps the marginal
lookups in range (See C8 for what happens otherwise). -/
theorem claim4_bias (population : List (GPPracticeCode × List Person)) (condition : QOFCondition)
    (prevalence : AgePrevalences) (gps : GPPracticeCode → Option GPPractice)
    (code : GPPracticeCode) (people : List Person) (gp : GPPractice)
    (out : GPPracticeCode → Option GPPractice)
    (hnodup : (population.map Prod.fst).Nodup)
    (hmem : (code, people) ∈ population)
    (hgp : gps code = some gp)
    (hrep : 0 ≤ gp.ConditionPrevalence condition)
    (hsex : ∀ p ∈ people, p.Sex < prevalence.length)
    (hout : estimateGPPracticeConditionBias population condition prevalence gps = some out) :
    ∃ gp2, out code = some gp2 ∧
      gp2.ConditionBias condition =
        (if gp.ConditionPrevalence condition ≠ 0 ∧
            0 < ((people.map fun p => prevalence.PrevalenceD p.Sex p.Age).sum) then
          ((people.length : ℚ) * gp.ConditionPrevalence condition) /
            ((people.map fun p => prevalence.PrevalenceD p.Sex p.Age).sum)
        else 1) ∧
      (gp.ConditionPrevalence condition = 0 → gp2.ConditionBias condition = 1) := by
  obtain ⟨b, hb, hcode⟩ := estimateGPPBias_result condition prevalence population gps out code
    people gp hnodup hmem hgp hout
  rw [estimateBiasFor_eq people _ prevalence hrep hsex] at hb
  have hbval := Option.some.inj hb
  refine ⟨_, hcode, ?_, ?_⟩
  · simp only [Function.update_same]
    exact hbval.symm
  · intro hz
    simp only [Function.update_same]
    rw [← hbval, if_neg (fun hc => hc.1 hz)]

/-- A two-row prevalence table for the C4 witness: probability 1/2 for
every male age, empty female row. -/
def wPrev : AgePrevalences := [[⟨⟨0, 0⟩, 1/2⟩], []]

/-- A male person assigned to practice "A", for the C4 witness. -/
def wPersonA : Person := ⟨0, Male, 30, "L", "A", [false, false, false]⟩

/-- Practice "A" with reported prevalence 1/10 for every condition. -/
def wGpA : GPPractice := ⟨"A", 100, fun _ => 1/10, fun _ => 1, 0, fun _ => 0⟩

/-- The practice map for the C4 witness: only "A" is present. -/
def wGps : GPPracticeCode → Option GPPractice := fun c => if c = "A" then some wGpA else none

theorem wPrev_sum :
    (([wPersonA].map fun p => wPrev.PrevalenceD p.Sex p.Age).sum) = 1/2 := by
  simp [wPersonA, wPrev, Male, AgePrevalences.PrevalenceD, prevalenceScan, AgeRange.Contains]

theorem wBias_eval :
    estimateBiasFor [wPersonA] (wGpA.ConditionPrevalence QOFConditionDiabetes) wPrev =
      some (1/5) := by
  rw [estimateBiasFor_eq _ _ _ (by norm_num [wGpA]) (fun p hp => by
    simp only [List.mem_singleton] at hp
    subst hp
    simp [wPersonA, wPrev, Male])]
  rw [wPrev_sum]
  rw [if_pos ⟨by norm_num [wGpA], by norm_num⟩]
  norm_num [wGpA]

/-- Witness for C4: one practice with one assigned person, reported
prevalence 1/10 and expected 1/2, yielding bias
(1 x 1/10) / (1/2) = 1/5. -/
theorem claim4_bias_witness :
    ∃ out gp2,
      estimateGPPracticeConditionBias [("A", [wPersonA])] QOFConditionDiabetes wPrev wGps =
        some out ∧
      out "A" = some gp2 ∧ gp2.ConditionBias QOFConditionDiabetes = 1/5 := by
  have hout : estimateGPPracticeConditionBias [("A", [wPersonA])] QOFConditionDiabetes wPrev
      wGps = some (Function.update wGps "A"
        (some { wGpA with
                ConditionBias :=
                  Function.update wGpA.ConditionBias QOFConditionDiabetes (1/5) })) := by
    simp only [estimateGPPracticeConditionBias]
    rw [show wGps ("A", [wPersonA]).1 = some wGpA from rfl]
    dsimp only
    rw [wBias_eval]
  obtain ⟨gp2, h1, h2, _⟩ := claim4_bias [("A", [wPersonA])] QOFConditionDiabetes wPrev wGps
    "A" [wPersonA] wGpA _ (by simp) (List.mem_singleton.mpr rfl) rfl
    (by norm_num [wGpA]) (fun p hp => by
      simp only [List.mem_singleton] at hp
      subst hp
      simp [wPersonA, wPrev, Male]) hout
  refine ⟨_, gp2, hout, h1, ?_⟩
  rw [h2, wPrev_sum, if_pos ⟨by norm_num [wGpA], by norm_num⟩]
  norm_num [wGpA]

theorem Prevalence_none {a : AgePrevalences} {sex : Sex} (h : a.length ≤ sex) (age : ℤ) :
    a.Prevalence sex age = none := by
  unfold AgePrevalences.Prevalence
  rw [List.get?_eq_none.mpr h]
  rfl

theorem sumPrevalences_none {prevalence : AgePrevalences} {p : Person} :
    ∀ {people : List Person}, p ∈ people → prevalence.Prevalence p.Sex p.Age = none →
      sumPrevalences prevalence people = none := by
  intro people
  induction people with
  | nil => intro h; cases h
  | cons q rest ih =>
    intro hmem hnone
    simp only [sumPrevalences]
    rcases List.mem_cons.mp hmem with rfl | hr
    · rw [hnone]
    · split
      · rfl
      · rw [ih hr hnone]
        rfl

/-- C8: every marginal prevalence table has exactly one row per tracked
sex, so the lookup with the residual "other" sex (tag 2) indexes past the
sex dimension and fails; the sampler gives "other" positive probability
whenever a region's person total exceeds its male-plus-female total
(and deterministically draws it for any uniform sample at or above
pMale + pFemale); bias estimation and condition assignment, which look up
every person's sex, therefore fail on any population containing an
"other"-sex person. -/
theorem claim8_other_sex_failure (lsoa : LSOA)
    (hm : 0 ≤ sum lsoa.MalesByAge) (hf : 0 ≤ sum lsoa.FemalesByAge)
    (hlt : sum lsoa.MalesByAge + sum lsoa.FemalesByAge < sum lsoa.PersonsByAge) :
    (DiabetesPrevalence.length = 2 ∧ HypertensionPrevalence.length = 2 ∧
      COPDPrevalence.length = 2) ∧
    (∀ age, DiabetesPrevalence.Prevalence Other age = none ∧
      HypertensionPrevalence.Prevalence Other age = none ∧
      COPDPrevalence.Prevalence Other age = none) ∧
    0 < (makeSexProbabilities lsoa).getD Other 0 ∧
    (∀ s : ℚ, (makeSexProbabilities lsoa).getD Male 0 +
        (makeSexProbabilities lsoa).getD Female 0 ≤ s → s < 1 →
      Probabilities.chooseWith (makeSexProbabilities lsoa) s = (Other : ℤ)) ∧
    (∀ (people : List Person) (prevalence : AgePrevalences) (p : Person) (reported : ℚ),
      p ∈ people → prevalence.length = 2 → p.Sex = Other → 0 < reported →
      estimateBiasFor people reported prevalence = none) ∧
    (∀ (c0 : QOFCondition) (rest : List QOFCondition)
        (prevalences : QOFCondition → AgePrevalences) (joint : JointPrevalences)
        (bias : QOFCondition → ℚ) (u : ℕ → ℚ) (p : Person),
      p.Sex = Other → (prevalences c0).length = 2 →
      assignPersonConditions (c0 :: rest) prevalences joint bias u p = none) := by
  have hN : (0 : ℚ) < ((sum lsoa.PersonsByAge : ℤ) : ℚ) := by
    have : (0 : ℤ) < sum lsoa.PersonsByAge := by omega
    exact_mod_cast this
  refine ⟨⟨rfl, rfl, rfl⟩, fun age => ⟨Prevalence_none (by norm_num [DiabetesPrevalence, Other]) age,
    Prevalence_none (by norm_num [HypertensionPrevalence, Other]) age,
    Prevalence_none (by norm_num [COPDPrevalence, Other]) age⟩, ?_, ?_, ?_, ?_⟩
  · simp only [makeSexProbabilities, Other, List.getD, List.get?, Option.getD_some]
    refine div_pos ?_ hN
    have : (0 : ℤ) < sum lsoa.PersonsByAge - sum lsoa.MalesByAge - sum lsoa.FemalesByAge := by
      omega
    exact_mod_cast this
  · intro s hs hs1
    have hM0 : (0 : ℚ) ≤ ((sum lsoa.MalesByAge : ℤ) : ℚ) / ((sum lsoa.PersonsByAge : ℤ) : ℚ) :=
      div_nonneg (by exact_mod_cast hm) hN.le
    have hF0 : (0 : ℚ) ≤ ((sum lsoa.FemalesByAge : ℤ) : ℚ) / ((sum lsoa.PersonsByAge : ℤ) : ℚ) :=
      div_nonneg (by exact_mod_cast hf) hN.le
    simp only [makeSexProbabilities, Male, Female, List.getD, List.get?, Option.getD_some] at hs
    have hsplit : ((sum lsoa.PersonsByAge - sum lsoa.MalesByAge - sum lsoa.FemalesByAge : ℤ) : ℚ) /
        ((sum lsoa.PersonsByAge : ℤ) : ℚ) =
        1 - ((sum lsoa.MalesByAge : ℤ) : ℚ) / ((sum lsoa.PersonsByAge : ℤ) : ℚ) -
          ((sum lsoa.FemalesByAge : ℤ) : ℚ) / ((sum lsoa.PersonsByAge : ℤ) : ℚ) := by
      field_simp
    have hC : s - ((sum lsoa.MalesByAge : ℤ) : ℚ) / ((sum lsoa.PersonsByAge : ℤ) : ℚ) -
        ((sum lsoa.FemalesByAge : ℤ) : ℚ) / ((sum lsoa.PersonsByAge : ℤ) : ℚ) <
        ((sum lsoa.PersonsByAge - sum lsoa.MalesByAge - sum lsoa.FemalesByAge : ℤ) : ℚ) /
          ((sum lsoa.PersonsByAge : ℤ) : ℚ) := by
      rw [hsplit]
      linarith
    simp only [Probabilities.chooseWith, chooseLoop, makeSexProbabilities]
    rw [if_neg (by linarith), if_neg (by linarith), if_pos hC]
    rfl
  · intro people prevalence p reported hmem hlen hsex hrep
    unfold estimateBiasFor
    rw [if_pos hrep, sumPrevalences_none hmem
      (Prevalence_none (by rw [hlen, hsex]; exact le_refl 2) p.Age)]
    rfl
  · intro c0 rest prevalences joint bias u p hsex hlen
    simp only [assignPersonConditions]
    rw [Prevalence_none (by rw [hlen, hsex]; exact le_refl 2) p.Age]

/-- A region whose person total (3) exceeds its male-plus-female total
(1 + 1), for the C8 witness. -/
def wLSOA8 : LSOA := ⟨"L", [3], [1], [1]⟩

/-- A person of the residual "other" sex, for the C8 witness. -/
def wOtherPerson : Person := ⟨0, Other, 30, "L", "A", [false, false, false]⟩

/-- Witness for C8: the region draws "other" with probability 1/3 (e.g. at
sample 5/6), and both bias estimation and condition assignment fail on a
population containing an "other"-sex person. -/
theorem claim8_other_sex_failure_witness :
    0 < (makeSexProbabilities wLSOA8).getD Other 0 ∧
    Probabilities.chooseWith (makeSexProbabilities wLSOA8) (5/6) = (Other : ℤ) ∧
    estimateBiasFor [wOtherPerson] (1/10) DiabetesPrevalence = none ∧
    assignPersonConditions [QOFConditionDiabetes] AllPrevalences (fun _ => none) (fun _ => 1)
      (fun _ => 0) wOtherPerson = none := by
  have h := claim8_other_sex_failure wLSOA8 (by decide) (by decide) (by decide)
  refine ⟨h.2.2.1, ?_, ?_, ?_⟩
  · refine h.2.2.2.1 (5/6) ?_ (by norm_num)
    norm_num [makeSexProbabilities, wLSOA8, Male, Female, List.getD, sum]
  · exact h.2.2.2.2.1 [wOtherPerson] DiabetesPrevalence wOtherPerson (1/10)
      (List.mem_singleton.mpr rfl) rfl rfl (by norm_num)
  · exact h.2.2.2.2.2 QOFConditionDiabetes [] AllPrevalences (fun _ => none) (fun _ => 1)
      (fun _ => 0) wOtherPerson rfl rfl

theorem mem_gpKeys {c : GPPracticeCode} : ∀ {people : List Person},
    (c ∈ gpKeys people ↔ ∃ p ∈ people, p.GP = c) := by
  intro people
  induction people with
  | nil => simp [gpKeys]
  | cons p rest ih =>
    simp only [gpKeys]
    by_cases hin : p.GP ∈ gpKeys rest
    · rw [if_pos hin, ih]
      constructor
      · rintro ⟨q, hq, hqc⟩
        exact ⟨q, List.mem_cons_of_mem p hq, hqc⟩
      · rintro ⟨q, hq, hqc⟩
        rcases List.mem_cons.mp hq with heq | hq'
        · subst heq
          subst hqc
          exact ih.mp hin
        · exact ⟨q, hq', hqc⟩
    · rw [if_neg hin]
      constructor
      · intro hc
        rcases List.mem_cons.mp hc with rfl | hc'
        · exact ⟨p, List.mem_cons_self p rest, rfl⟩
        · obtain ⟨q, hq, hqc⟩ := ih.mp hc'
          exact ⟨q, List.mem_cons_of_mem p hq, hqc⟩
      · rintro ⟨q, hq, hqc⟩
        rcases List.mem_cons.mp hq with heq | hq'
        · subst heq
          rw [← hqc]
          exact List.mem_cons_self _ _
        · exact List.mem_cons_of_mem _ (ih.mpr ⟨q, hq', hqc⟩)

theorem groupByGP_mem {c : GPPracticeCode} {people : List Person} (h : c ∈ gpKeys people) :
    (c, people.filter (fun p => p.GP = c)) ∈ groupByGP people := by
  unfold groupByGP
  exact List.mem_map_of_mem _ h

theorem estimateGPPBias_none (condition : QOFCondition) (prevalence : AgePrevalences)
    (l : List Person) :
    ∀ (population : List (GPPracticeCode × List Person))
      (gps : GPPracticeCode → Option GPPractice),
      (GPPracticeCodeInvalid, l) ∈ population → gps GPPracticeCodeInvalid = none →
      estimateGPPracticeConditionBias population condition prevalence gps = none := by
  intro population
  induction population with
  | nil =>
    intro gps h
    cases h
  | cons e rest ih =>
    intro gps hmem hnone
    simp only [estimateGPPracticeConditionBias]
    split
    · rfl
    · next gp hgps =>
      have hne : e.1 ≠ GPPracticeCodeInvalid := by
        intro he
        rw [he, hnone] at hgps
        cases hgps
      split
      · rfl
      · have hrest : (GPPracticeCodeInvalid, l) ∈ rest := by
          rcases List.mem_cons.mp hmem with heq | hr
          · exact absurd (congrArg Prod.fst heq.symm) hne
          · exact hr
        refine ih _ hrest ?_
        rw [Function.update_noteq (Ne.symm hne)]
        exact hnone

theorem assignConditions_map_none (conditions : List QOFCondition)
    (prevalences : QOFCondition → AgePrevalences) (joint : JointPrevalences)
    (rnd : GPPracticeCode → ℕ → List QOFCondition × (ℕ → ℚ)) (l : List Person) (hl : l ≠ []) :
    ∀ (population : List (GPPracticeCode × List Person))
      (gps : GPPracticeCode → Option GPPractice),
      (GPPracticeCodeInvalid, l) ∈ population → gps GPPracticeCodeInvalid = none →
      assignConditions population conditions prevalences joint gps rnd = none := by
  intro population
  induction population with
  | nil =>
    intro gps h
    cases h
  | cons e rest ih =>
    intro gps hmem hnone
    simp only [assignConditions]
    split
    · next hgps =>
      split
      · next hemp =>
        have hrest : (GPPracticeCodeInvalid, l) ∈ rest := by
          rcases List.mem_cons.mp hmem with heq | hr
          · exfalso
            apply hl
            rw [show l = e.2 from congrArg Prod.snd heq, hemp]
          · exact hr
        rw [ih _ hrest hnone]
        rfl
      · rfl
    · next gp hgps =>
      have hne : e.1 ≠ GPPracticeCodeInvalid := by
        intro he
        rw [he, hnone] at hgps
        cases hgps
      split
      · rfl
      · have hrest : (GPPracticeCodeInvalid, l) ∈ rest := by
          rcases List.mem_cons.mp hmem with heq | hr
          · exact absurd (congrArg Prod.fst heq.symm) hne
          · exact hr
        rw [ih _ hrest (by rw [Function.update_noteq (Ne.symm hne)]; exact hnone)]
        rfl

/-- C9: persons with no eligible provider are grouped under the invalid
sentinel code like any other key; that key is not in the practice map, and
both bias estimation and condition assignment dereference the looked-up
practice for every key (for every person of the key, in the assignment
case), so both fail whenever at least one sampled person carries the
sentinel. -/
theorem claim9_sentinel_failure (people : List Person) (condition : QOFCondition)
    (prevalence : AgePrevalences) (conditions : List QOFCondition)
    (prevalences : QOFCondition → AgePrevalences) (joint : JointPrevalences)
    (gps : GPPracticeCode → Option GPPractice)
    (rnd : GPPracticeCode → ℕ → List QOFCondition × (ℕ → ℚ))
    (hnone : gps GPPracticeCodeInvalid = none)
    (hex : ∃ p ∈ people, p.GP = GPPracticeCodeInvalid) :
    GPPracticeCodeInvalid ∈ gpKeys people ∧
    (GPPracticeCodeInvalid, people.filter (fun p => p.GP = GPPracticeCodeInvalid)) ∈
      groupByGP people ∧
    people.filter (fun p => p.GP = GPPracticeCodeInvalid) ≠ [] ∧
    estimateGPPracticeConditionBias (groupByGP people) condition prevalence gps = none ∧
    assignConditions (groupByGP people) conditions prevalences joint gps rnd = none := by
  have hkey : GPPracticeCodeInvalid ∈ gpKeys people := mem_gpKeys.mpr hex
  have hmem := groupByGP_mem hkey
  have hne : people.filter (fun p => p.GP = GPPracticeCodeInvalid) ≠ [] := by
    obtain ⟨p, hp, hgp⟩ := hex
    intro hempty
    have hpf : p ∈ people.filter (fun p => p.GP = GPPracticeCodeInvalid) :=
      List.mem_filter.mpr ⟨hp, by simp [hgp]⟩
    rw [hempty] at hpf
    cases hpf
  exact ⟨hkey, hmem, hne,
    estimateGPPBias_none condition prevalence _ _ gps hmem hnone,
    assignConditions_map_none conditions prevalences joint rnd _ hne _ gps hmem hnone⟩

/-- A person carrying the no-provider sentinel, for the C9 witness. -/
def wInvPerson : Person := ⟨0, Male, 30, "L", "", [false, false, false]⟩

/-- Witness for C9: a single sentinel-carrying person makes both
operations fail against a practice map with no entry for the sentinel. -/
theorem claim9_sentinel_failure_witness :
    estimateGPPracticeConditionBias (groupByGP [wInvPerson]) QOFConditionDiabetes
      DiabetesPrevalence (fun _ => none) = none ∧
    assignConditions (groupByGP [wInvPerson]) [QOFConditionDiabetes] AllPrevalences
      (fun _ => none) (fun _ => none) (fun _ _ => ([], fun _ => 0)) = none := by
  have h := claim9_sentinel_failure [wInvPerson] QOFConditionDiabetes DiabetesPrevalence
    [QOFConditionDiabetes] AllPrevalences (fun _ => none) (fun _ => none)
    (fun _ _ => ([], fun _ => 0)) rfl ⟨wInvPerson, List.mem_singleton.mpr rfl, rfl⟩
  exact ⟨h.2.2.2.1, h.2.2.2.2⟩

theorem getCond_setCond (conds : List Bool) (c : QOFCondition) (v : Bool)
    (h : c.toNat < conds.length) : getCond (setCond conds c v) c = v := by
  unfold getCond setCond
  rw [List.getD_eq_getElem?_getD, List.getElem?_set_eq_of_lt v h]
  rfl

/-- Modelled from the spec: the tail of the per-person draw sequence —
each subsequent condition in the permuted order is drawn from the
prevalence conditioned on the just-drawn presence of the immediately
preceding condition (carried explicitly here), times the bias; a missing
conditional entry aborts. -/
def specDrawsRest (prevalences : QOFCondition → AgePrevalences) (joint : JointPrevalences)
    (bias : QOFCondition → ℚ) (sex : Sex) (age : ℤ) (u : ℕ → ℚ) :
    QOFCondition → Bool → ℕ → List QOFCondition → Option (List Bool)
  | _, _, _, [] => some []
  | prev, prevPresent, i, c :: rest =>
    match joint ⟨(c, prev), prevPresent⟩ with
    | none => none
    | some j =>
      match j.Prevalence sex age with
      | none => none
      | some q =>
        (specDrawsRest prevalences joint bias sex age u c
            (decide (u i < q * bias c)) (i + 1) rest).map
          (decide (u i < q * bias c) :: ·)

/-- Modelled from the spec: the full per-person draw sequence — the first
permuted condition is drawn from its marginal prevalence times the bias,
the rest from the chain conditioned only on the immediate predecessor. -/
def specDraws (prevalences : QOFCondition → AgePrevalences) (joint : JointPrevalences)
    (bias : QOFCondition → ℚ) (sex : Sex) (age : ℤ) (u : ℕ → ℚ) :
    List QOFCondition → Option (List Bool)
  | [] => none
  | c0 :: rest =>
    match (prevalences c0).Prevalence sex age with
    | none => none
    | some q =>
      (specDrawsRest prevalences joint bias sex age u c0
          (decide (u 0 < q * bias c0)) 1 rest).map
        (decide (u 0 < q * bias c0) :: ·)

/-- Store a sequence of draws into the condition array, in permuted
order. -/
def applyDraws (conds : List Bool) (perm : List QOFCondition) (bs : List Bool) : List Bool :=
  (perm.zip bs).foldl (fun cs cb => setCond cs cb.1 cb.2) conds

theorem assignRest_eq (prevalences : QOFCondition → AgePrevalences) (joint : JointPrevalences)
    (bias : QOFCondition → ℚ) (sex : Sex) (age : ℤ) (u : ℕ → ℚ) :
    ∀ (rest : List QOFCondition) (prev : QOFCondition) (b : Bool) (i : ℕ) (conds : List Bool),
      (∀ c ∈ rest, c.toNat < conds.length) →
      getCond conds prev = b →
      assignRest prevalences joint bias sex age u prev i rest conds =
        (specDrawsRest prevalences joint bias sex age u prev b i rest).map
          (fun bs => (rest.zip bs).foldl (fun cs cb => setCond cs cb.1 cb.2) conds) := by
  intro rest
  induction rest with
  | nil =>
    intro prev b i conds _ _
    rfl
  | cons c rest' ih =>
    intro prev b i conds hin hprev
    simp only [assignRest, specDrawsRest, hprev]
    cases hj : joint ⟨(c, prev), b⟩ with
    | none => rfl
    | some j =>
      dsimp only
      cases hq : j.Prevalence sex age with
      | none => rfl
      | some q =>
        dsimp only
        have hc : c.toNat < conds.length := hin c (List.mem_cons_self c rest')
        rw [ih c (decide (u i < q * bias c)) (i + 1) (setCond conds c (decide (u i < q * bias c)))
          (fun d hd => by rw [setCond, List.length_set]; exact hin d (List.mem_cons_of_mem c hd))
          (getCond_setCond conds c _ hc)]
        rw [Option.map_map]
        rfl

theorem assignPerson_eq_specDraws (shuffled : List QOFCondition)
    (prevalences : QOFCondition → AgePrevalences) (joint : JointPrevalences)
    (bias : QOFCondition → ℚ) (u : ℕ → ℚ) (p : Person)
    (hin : ∀ c ∈ shuffled, c.toNat < p.Conditions.length) :
    (assignPersonConditions shuffled prevalences joint bias u p).map Person.Conditions =
      (specDraws prevalences joint bias p.Sex p.Age u shuffled).map
        (applyDraws p.Conditions shuffled) := by
  cases shuffled with
  | nil => rfl
  | cons c0 rest =>
    simp only [assignPersonConditions, specDraws]
    cases hq : (prevalences c0).Prevalence p.Sex p.Age with
    | none => rfl
    | some q =>
      dsimp only
      have hc0 : c0.toNat < p.Conditions.length := hin c0 (List.mem_cons_self c0 rest)
      rw [assignRest_eq prevalences joint bias p.Sex p.Age u rest c0
        (decide (u 0 < q * bias c0)) 1 (setCond p.Conditions c0 (decide (u 0 < q * bias c0)))
        (fun d hd => by rw [setCond, List.length_set]; exact hin d (List.mem_cons_of_mem c0 hd))
        (getCond_setCond p.Conditions c0 _ hc0)]
      rw [Option.map_map, Option.map_map, Option.map_map]
      rfl

theorem tallyPerson_not_mem (p : Person) (c : QOFCondition) :
    ∀ (conditions : List QOFCondition) (counts : QOFCondition → ℤ), c ∉ conditions →
      tallyPerson conditions counts p c = counts c := by
  intro conditions
  induction conditions with
  | nil => intro counts _; rfl
  | cons d rest ih =>
    intro counts hc
    have hcd : c ≠ d := fun h => hc (h ▸ List.mem_cons_self d rest)
    have hcr : c ∉ rest := fun h => hc (List.mem_cons_of_mem d h)
    simp only [tallyPerson]
    rw [ih _ hcr]
    split
    · exact Function.update_noteq hcd _ _
    · rfl

theorem tallyPerson_mem (p : Person) (c : QOFCondition) :
    ∀ (conditions : List QOFCondition) (counts : QOFCondition → ℤ),
      c ∈ conditions → conditions.Nodup →
      tallyPerson conditions counts p c =
        counts c + (if getCond p.Conditions c then 1 else 0) := by
  intro conditions
  induction conditions with
  | nil =>
    intro counts h
    cases h
  | cons d rest ih =>
    intro counts hmem hnodup
    simp only [tallyPerson]
    rcases List.mem_cons.mp hmem with rfl | hr
    · have hcr : c ∉ rest := (List.nodup_cons.mp hnodup).1
      rw [tallyPerson_not_mem p c rest _ hcr]
      cases hg : getCond p.Conditions c <;> simp [hg, Function.update_same]
    · have hd : d ∉ rest := (List.nodup_cons.mp hnodup).1
      have hdc : d ≠ c := fun h => hd (h ▸ hr)
      rw [ih _ hr (List.nodup_cons.mp hnodup).2]
      congr 1
      split
      · exact Function.update_noteq (Ne.symm hdc) _ _
      · rfl

theorem assignPeople_none (conditions : List QOFCondition)
    (prevalences : QOFCondition → AgePrevalences) (joint : JointPrevalences)
    (bias : QOFCondition → ℚ) (rnd : ℕ → List QOFCondition × (ℕ → ℚ)) :
    ∀ (people : List Person) (k : ℕ) (counts : QOFCondition → ℤ),
      (∃ i p', people.get? i = some p' ∧
        assignPersonConditions (rnd (k + i)).1 prevalences joint bias (rnd (k + i)).2 p' =
          none) →
      assignPeople conditions prevalences joint bias rnd people k counts = none := by
  intro people
  induction people with
  | nil =>
    rintro k counts ⟨i, p', hget, _⟩
    simp at hget
  | cons p rest ih =>
    rintro k counts ⟨i, p', hget, hnone⟩
    simp only [assignPeople]
    cases i with
    | zero =>
      simp only [List.get?, Option.some.injEq] at hget
      subst hget
      rw [Nat.add_zero] at hnone
      rw [hnone]
    | succ j =>
      split
      · rfl
      · rw [ih (k + 1) _ ⟨j, p', by simpa using hget,
          by rw [show k + 1 + j = k + (j + 1) from by omega]; exact hnone⟩]
        rfl

theorem assignPeople_counts (conditions : List QOFCondition)
    (prevalences : QOFCondition → AgePrevalences) (joint : JointPrevalences)
    (bias : QOFCondition → ℚ) (rnd : ℕ → List QOFCondition × (ℕ → ℚ)) (c : QOFCondition)
    (hmem : c ∈ conditions) (hnodup : conditions.Nodup) :
    ∀ (people : List Person) (k : ℕ) (counts : QOFCondition → ℤ)
      (ppl : List Person) (cts : QOFCondition → ℤ),
      assignPeople conditions prevalences joint bias rnd people k counts = some (ppl, cts) →
      cts c = counts c + (ppl.countP (fun q => getCond q.Conditions c) : ℤ) := by
  intro people
  induction people with
  | nil =>
    intro k counts ppl cts h
    simp only [assignPeople, Option.some.injEq] at h
    have h1 : ppl = [] := (congrArg Prod.fst h).symm
    have h2 : cts = counts := (congrArg Prod.snd h).symm
    subst h1
    subst h2
    simp
  | cons p rest ih =>
    intro k counts ppl cts h
    simp only [assignPeople] at h
    split at h
    · cases h
    · next q hq =>
      rw [Option.map_eq_some'] at h
      obtain ⟨r, hr, heq⟩ := h
      have h1 : ppl = q :: r.1 := (congrArg Prod.fst heq).symm
      have h2 : cts = r.2 := (congrArg Prod.snd heq).symm
      subst h1
      subst h2
      rw [ih (k + 1) (tallyPerson conditions counts q) r.1 r.2 hr,
        tallyPerson_mem q c conditions counts hmem hnodup, List.countP_cons]
      push_cast
      cases hg : getCond q.Conditions c <;> simp [hg] <;> ring

/-- C6: per person, the source condition assignment agrees with the
spec-worded chain (first permuted condition from its marginal prevalence
times bias; each subsequent one from the table conditioned on the
immediately preceding condition's just-drawn presence, times bias); it
aborts exactly when the chain hits a missing conditional entry (or an
out-of-range lookup); any person's abort aborts the practice's whole
assignment loop; and on success each present condition increments the
practice's simulated diagnosis count by one per person holding it. -/
theorem claim6_condition_assignment
    (shuffled : List QOFCondition) (prevalences : QOFCondition → AgePrevalences)
    (joint : JointPrevalences) (bias : QOFCondition → ℚ) (u : ℕ → ℚ) (p : Person)
    (conditions : List QOFCondition) (gp : GPPractice) (people : List Person)
    (rnd : ℕ → List QOFCondition × (ℕ → ℚ)) (c : QOFCondition)
    (hin : ∀ d ∈ shuffled, d.toNat < p.Conditions.length)
    (hmem : c ∈ conditions) (hnodup : conditions.Nodup) :
    ((assignPersonConditions shuffled prevalences joint bias u p).map Person.Conditions =
      (specDraws prevalences joint bias p.Sex p.Age u shuffled).map
        (applyDraws p.Conditions shuffled)) ∧
    (assignPersonConditions shuffled prevalences joint bias u p = none ↔
      specDraws prevalences joint bias p.Sex p.Age u shuffled = none) ∧
    ((∃ i p', people.get? i = some p' ∧
        assignPersonConditions (rnd i).1 prevalences joint gp.ConditionBias (rnd i).2 p' =
          none) →
      assignForGP conditions prevalences joint gp people rnd = none) ∧
    (∀ ppl gp2, assignForGP conditions prevalences joint gp people rnd = some (ppl, gp2) →
      gp2.SimulatedConditionCounts c = gp.SimulatedConditionCounts c +
        (ppl.countP (fun q => getCond q.Conditions c) : ℤ)) := by
  have hmain := assignPerson_eq_specDraws shuffled prevalences joint bias u p hin
  refine ⟨hmain, ?_, ?_, ?_⟩
  · constructor
    · intro hnone
      rw [hnone] at hmain
      simp only [Option.map_none'] at hmain
      exact Option.map_eq_none'.mp hmain.symm
    · intro hnone
      rw [hnone] at hmain
      simp only [Option.map_none'] at hmain
      exact Option.map_eq_none'.mp hmain
  · rintro ⟨i, p', hget, hnone⟩
    unfold assignForGP
    rw [assignPeople_none conditions prevalences joint gp.ConditionBias rnd people 0
      gp.SimulatedConditionCounts ⟨i, p', hget, by simpa using hnone⟩]
    rfl
  · intro ppl gp2 hsome
    unfold assignForGP at hsome
    rw [Option.map_eq_some'] at hsome
    obtain ⟨r, hr, heq⟩ := hsome
    have h1 : ppl = r.1 := (congrArg Prod.fst heq).symm
    have h2 : gp2 = { gp with SimulatedConditionCounts := r.2 } :=
      (congrArg Prod.snd heq).symm
    subst h1
    subst h2
    exact assignPeople_counts conditions prevalences joint gp.ConditionBias rnd c hmem hnodup
      people 0 gp.SimulatedConditionCounts r.1 r.2 hr

/-- A conditional-prevalence map answering every key with the diabetes
table, for the C6 witness. -/
def wJoint : JointPrevalences := fun _ => some DiabetesPrevalence

/-- Witness for C6: one tracked condition, one male person; the source
assignment agrees with the spec-worded chain. -/
theorem claim6_condition_assignment_witness :
    (assignPersonConditions [QOFConditionDiabetes] AllPrevalences wJoint (fun _ => 1)
        (fun _ => 1) wPersonA).map Person.Conditions =
      (specDraws AllPrevalences wJoint (fun _ => 1) wPersonA.Sex wPersonA.Age (fun _ => 1)
        [QOFConditionDiabetes]).map (applyDraws wPersonA.Conditions [QOFConditionDiabetes]) :=
  (claim6_condition_assignment [QOFConditionDiabetes] AllPrevalences wJoint (fun _ => 1)
    (fun _ => 1) wPersonA [QOFConditionDiabetes] wGpA [wPersonA]
    (fun _ => ([QOFConditionDiabetes], fun _ => 1)) QOFConditionDiabetes
    (by decide) (by decide) (by decide)).1

end PopHealth
